import Mathlib

/-
Verification development for the mail-platform control plane:
a shallow embedding of the Mail Backend Control API (MailServerApi)
and the Abuse Detection Worker (RateLimitWorker), together with proofs
of the behavioural properties stated in the specification.

Modelling conventions:
* Database tables are lists of typed rows; SQL statements become list
  operations (filter / map / append) that mirror the WHERE clauses and
  ON CONFLICT behaviour of the queries in the source.
* Timestamps are naturals counting milliseconds since the epoch
  (JavaScript Date.getTime()).  NOW() is threaded explicitly as a `now`
  argument.
* JavaScript string primitives (trim, toLowerCase, String(n), a || b)
  are embedded as executable Lean functions on `String` / `List Char`.
* Regular expressions from the source are embedded as executable
  matchers that implement the regex semantics on ASCII data.
* External effects (bcrypt, RSA key generation, public-key derivation)
  are passed in as function/value parameters; the filesystem is a
  finite map from paths to file contents.
-/

namespace MailPlatform

/-! ### JavaScript string primitives -/

/-- JS whitespace (the characters matched by the regexp class backslash-s,
restricted to ASCII): space, tab, LF, VT, FF, CR. -/
def jsWhitespace (c : Char) : Bool :=
  c.toNat == 32 || c.toNat == 9 || c.toNat == 10 ||
  c.toNat == 11 || c.toNat == 12 || c.toNat == 13

/-- JS String.prototype.toLowerCase on a single character (ASCII range). -/
def jsToLowerChar (c : Char) : Char :=
  if 65 ≤ c.toNat ∧ c.toNat ≤ 90 then Char.ofNat (c.toNat + 32) else c

/-- JS String.prototype.toLowerCase (ASCII). -/
def jsToLower (s : String) : String :=
  String.mk (s.data.map jsToLowerChar)

/-- Trimming on character lists: drop leading and trailing whitespace. -/
def trimList (l : List Char) : List Char :=
  ((l.dropWhile jsWhitespace).reverse.dropWhile jsWhitespace).reverse

/-- JS String.prototype.trim. -/
def jsTrim (s : String) : String :=
  String.mk (trimList s.data)

/-- The composite `String(x).trim().toLowerCase()` used throughout the
Control API to normalise identifiers. -/
def jsNorm (s : String) : String :=
  jsToLower (jsTrim s)

/-- JS `a || b` on strings: the empty string is falsy. -/
def jsFalsyOr (a b : String) : String :=
  if a = "" then b else a

/-- JS `a || b` where `a` is a possibly-null string (null and the empty
string are both falsy). -/
def jsOrStr (a : Option String) (b : String) : String :=
  match a with
  | some s => if s = "" then b else s
  | none => b

/-! ### Decimal rendering of naturals (JS `String(n)`) -/

/-- Little-endian decimal digits of a positive natural, with explicit
fuel so the definition is structural and kernel-reducible. -/
def decDigitsRevAux : Nat → Nat → List Nat
  | 0, _ => []
  | _ + 1, 0 => []
  | fuel + 1, n + 1 => (n + 1) % 10 :: decDigitsRevAux fuel ((n + 1) / 10)

/-- Little-endian decimal digits of a natural (empty for 0). -/
def decDigitsRev (n : Nat) : List Nat :=
  decDigitsRevAux n n

/-- The character for a decimal digit. -/
def digitChar (d : Nat) : Char :=
  Char.ofNat (48 + d)

/-- JS `String(n)` for a natural number: its decimal representation. -/
def natToDecimal (n : Nat) : String :=
  if n = 0 then "0" else String.mk ((decDigitsRev n).reverse.map digitChar)

/-- Value of a little-endian digit list. -/
def ofDigitsRev : List Nat → Nat
  | [] => 0
  | d :: ds => d + 10 * ofDigitsRev ds

theorem ofDigitsRev_decDigitsRevAux :
    ∀ fuel n, n ≤ fuel → ofDigitsRev (decDigitsRevAux fuel n) = n := by
  intro fuel
  induction fuel with
  | zero =>
    intro n hn
    interval_cases n
    rfl
  | succ fuel ih =>
    intro n hn
    cases n with
    | zero => rfl
    | succ m =>
      have hdiv : (m + 1) / 10 ≤ fuel := by
        have h1 : (m + 1) / 10 < m + 1 := Nat.div_lt_self (Nat.succ_pos m) (by norm_num)
        omega
      simp only [decDigitsRevAux, ofDigitsRev, ih _ hdiv]
      omega

theorem ofDigitsRev_decDigitsRev (n : Nat) : ofDigitsRev (decDigitsRev n) = n :=
  ofDigitsRev_decDigitsRevAux n n (le_refl n)

theorem decDigitsRev_inj {a b : Nat} (h : decDigitsRev a = decDigitsRev b) : a = b := by
  have h1 := ofDigitsRev_decDigitsRev a
  rw [h, ofDigitsRev_decDigitsRev b] at h1
  exact h1.symm

theorem decDigitsRevAux_lt_ten :
    ∀ fuel n d, d ∈ decDigitsRevAux fuel n → d < 10 := by
  intro fuel
  induction fuel with
  | zero => intro n d hd; simp [decDigitsRevAux] at hd
  | succ fuel ih =>
    intro n d hd
    cases n with
    | zero => simp [decDigitsRevAux] at hd
    | succ m =>
      simp only [decDigitsRevAux, List.mem_cons] at hd
      rcases hd with h | h
      · rw [h]; exact Nat.mod_lt _ (by norm_num)
      · exact ih _ _ h

theorem digitChar_inj_lt :
    ∀ a < 10, ∀ b < 10, digitChar a = digitChar b → a = b := by decide

theorem map_digitChar_inj :
    ∀ l1 l2 : List Nat, (∀ d ∈ l1, d < 10) → (∀ d ∈ l2, d < 10) →
      l1.map digitChar = l2.map digitChar → l1 = l2 := by
  intro l1
  induction l1 with
  | nil =>
    intro l2 _ _ h
    cases l2 with
    | nil => rfl
    | cons b bs => simp at h
  | cons a as ih =>
    intro l2 h1 h2 h
    cases l2 with
    | nil => simp at h
    | cons b bs =>
      simp only [List.map_cons, List.cons.injEq] at h
      have ha : a < 10 := h1 a (List.mem_cons_self a as)
      have hb : b < 10 := h2 b (List.mem_cons_self b bs)
      have hab : a = b := digitChar_inj_lt a ha b hb h.1
      have htl : as = bs :=
        ih bs (fun d hd => h1 d (List.mem_cons_of_mem a hd))
          (fun d hd => h2 d (List.mem_cons_of_mem b hd)) h.2
      rw [hab, htl]

theorem eq_zero_of_digit_string_zero {b : Nat}
    (h : (decDigitsRev b).reverse.map digitChar = ['0']) : b = 0 := by
  obtain ⟨d, hd⟩ : ∃ d, (decDigitsRev b).reverse = [d] := by
    cases hr : (decDigitsRev b).reverse with
    | nil => rw [hr] at h; simp at h
    | cons x xs =>
      cases xs with
      | nil => exact ⟨x, rfl⟩
      | cons y ys => rw [hr] at h; simp at h
  rw [hd] at h
  simp only [List.map_cons, List.map_nil, List.cons.injEq, and_true] at h
  have hd10 : d < 10 := by
    have hmem : d ∈ (decDigitsRev b).reverse := by
      rw [hd]; exact List.mem_singleton.mpr rfl
    exact decDigitsRevAux_lt_ten b b d (List.mem_reverse.mp hmem)
  have hd0 : d = 0 := digitChar_inj_lt d hd10 0 (by norm_num) h
  have hsing : decDigitsRev b = [0] := by
    have := congrArg List.reverse hd
    simpa [hd0] using this
  have := ofDigitsRev_decDigitsRev b
  rw [hsing] at this
  simpa [ofDigitsRev] using this.symm

theorem natToDecimal_inj {a b : Nat} (h : natToDecimal a = natToDecimal b) : a = b := by
  unfold natToDecimal at h
  by_cases ha : a = 0 <;> by_cases hb : b = 0
  · rw [ha, hb]
  · exfalso
    rw [if_pos ha, if_neg hb] at h
    have hdata := congrArg String.data h
    exact hb (eq_zero_of_digit_string_zero hdata.symm)
  · exfalso
    rw [if_neg ha, if_pos hb] at h
    have hdata := congrArg String.data h
    exact ha (eq_zero_of_digit_string_zero hdata)
  · rw [if_neg ha, if_neg hb] at h
    have hdata := congrArg String.data h
    simp only [] at hdata
    have hmap : (decDigitsRev a).reverse.map digitChar = (decDigitsRev b).reverse.map digitChar := hdata
    have hrev : (decDigitsRev a).reverse = (decDigitsRev b).reverse :=
      map_digitChar_inj _ _
        (fun d hd => decDigitsRevAux_lt_ten a a d (List.mem_reverse.mp hd))
        (fun d hd => decDigitsRevAux_lt_ten b b d (List.mem_reverse.mp hd)) hmap
    have : decDigitsRev a = decDigitsRev b := by
      have := congrArg List.reverse hrev
      simpa using this
    exact decDigitsRev_inj this

/-! ### Lemmas about the JS string primitives -/

theorem charOfNat_toNat {n : Nat} (h : n < 55296) : (Char.ofNat n).toNat = n := by
  unfold Char.ofNat
  rw [dif_pos (Or.inl h)]
  unfold Char.ofNatAux Char.toNat
  have h2 : n < 2 ^ 32 := lt_trans h (by norm_num)
  simp [UInt32.toNat, BitVec.toNat_ofNat, Nat.mod_eq_of_lt h2]

theorem jsToLowerChar_toNat_of_upper {c : Char} (h : 65 ≤ c.toNat ∧ c.toNat ≤ 90) :
    (jsToLowerChar c).toNat = c.toNat + 32 := by
  unfold jsToLowerChar
  rw [if_pos h]
  exact charOfNat_toNat (by omega)

theorem jsToLowerChar_idem (c : Char) : jsToLowerChar (jsToLowerChar c) = jsToLowerChar c := by
  by_cases h : 65 ≤ c.toNat ∧ c.toNat ≤ 90
  · have ht : (jsToLowerChar c).toNat = c.toNat + 32 := jsToLowerChar_toNat_of_upper h
    have hnot : ¬(65 ≤ (jsToLowerChar c).toNat ∧ (jsToLowerChar c).toNat ≤ 90) := by omega
    show (if 65 ≤ (jsToLowerChar c).toNat ∧ (jsToLowerChar c).toNat ≤ 90 then
        Char.ofNat ((jsToLowerChar c).toNat + 32) else jsToLowerChar c) = jsToLowerChar c
    rw [if_neg hnot]
  · have hfix : jsToLowerChar c = c := by unfold jsToLowerChar; rw [if_neg h]
    rw [hfix]
    exact hfix

theorem map_jsToLowerChar_idem (l : List Char) :
    (l.map jsToLowerChar).map jsToLowerChar = l.map jsToLowerChar := by
  induction l with
  | nil => rfl
  | cons a t ih => simp only [List.map_cons, jsToLowerChar_idem, ih]

theorem jsToLower_idem (s : String) : jsToLower (jsToLower s) = jsToLower s := by
  show String.mk ((s.data.map jsToLowerChar).map jsToLowerChar)
      = String.mk (s.data.map jsToLowerChar)
  rw [map_jsToLowerChar_idem]

theorem ws_false_of_ge_65 {n : Nat} (h : 65 ≤ n) :
    (n == 32 || n == 9 || n == 10 || n == 11 || n == 12 || n == 13) = false := by
  simp only [Bool.or_eq_false_iff, beq_eq_false_iff_ne, ne_eq]
  omega

theorem jsWhitespace_toLowerChar (c : Char) :
    jsWhitespace (jsToLowerChar c) = jsWhitespace c := by
  by_cases h : 65 ≤ c.toNat ∧ c.toNat ≤ 90
  · have ht : (jsToLowerChar c).toNat = c.toNat + 32 := jsToLowerChar_toNat_of_upper h
    unfold jsWhitespace
    rw [ht, ws_false_of_ge_65 (by omega), ws_false_of_ge_65 (by omega)]
  · unfold jsToLowerChar
    rw [if_neg h]

theorem dropWhile_self_idem (p : Char → Bool) :
    ∀ l : List Char, (l.dropWhile p).dropWhile p = l.dropWhile p := by
  intro l
  induction l with
  | nil => rfl
  | cons a t ih =>
    by_cases h : p a
    · simp [List.dropWhile, h, ih]
    · simp [List.dropWhile, h]

theorem head?_dropWhile_false {p : Char → Bool} :
    ∀ {l : List Char} {x : Char}, (l.dropWhile p).head? = some x → p x = false := by
  intro l
  induction l with
  | nil => intro x h; simp [List.dropWhile] at h
  | cons a t ih =>
    intro x h
    by_cases hp : p a
    · rw [List.dropWhile_cons, if_pos hp] at h
      exact ih h
    · rw [List.dropWhile_cons, if_neg hp] at h
      simp only [List.head?_cons, Option.some.injEq] at h
      rw [← h]
      exact Bool.eq_false_iff.mpr hp

theorem getLast?_cons_ne_nil {α : Type} {a : α} {t : List α} (ht : t ≠ []) :
    (a :: t).getLast? = t.getLast? := by
  cases t with
  | nil => exact absurd rfl ht
  | cons b u => exact List.getLast?_cons_cons

theorem getLast?_dropWhile {p : Char → Bool} :
    ∀ {l : List Char}, l.dropWhile p ≠ [] → (l.dropWhile p).getLast? = l.getLast? := by
  intro l
  induction l with
  | nil => intro h; simp [List.dropWhile] at h
  | cons a t ih =>
    intro h
    by_cases hp : p a
    · rw [List.dropWhile_cons, if_pos hp] at h ⊢
      rw [ih h, getLast?_cons_ne_nil]
      intro ht
      rw [ht] at h
      simp [List.dropWhile] at h
    · rw [List.dropWhile_cons, if_neg hp]

theorem dropWhile_eq_self_of_head {p : Char → Bool} {l : List Char}
    (h : ∀ x, l.head? = some x → p x = false) : l.dropWhile p = l := by
  cases l with
  | nil => rfl
  | cons a t =>
    have hfalse := h a rfl
    rw [List.dropWhile_cons, if_neg (by simp [hfalse])]

theorem trimList_idem (l : List Char) : trimList (trimList l) = trimList l := by
  by_cases hue : (l.dropWhile jsWhitespace).reverse.dropWhile jsWhitespace = []
  · unfold trimList
    rw [hue]
    simp [List.dropWhile]
  · have hstep1 :
        ((l.dropWhile jsWhitespace).reverse.dropWhile jsWhitespace).reverse.dropWhile
            jsWhitespace
          = ((l.dropWhile jsWhitespace).reverse.dropWhile jsWhitespace).reverse := by
      apply dropWhile_eq_self_of_head
      intro x hx
      rw [List.head?_reverse, getLast?_dropWhile hue, List.getLast?_reverse] at hx
      exact head?_dropWhile_false hx
    unfold trimList
    rw [hstep1, List.reverse_reverse, dropWhile_self_idem]

theorem jsTrim_idem (s : String) : jsTrim (jsTrim s) = jsTrim s := by
  unfold jsTrim
  rw [trimList_idem]

theorem trimList_map_toLower (l : List Char) :
    trimList (l.map jsToLowerChar) = (trimList l).map jsToLowerChar := by
  unfold trimList
  have hpred : (jsWhitespace ∘ jsToLowerChar) = jsWhitespace := by
    funext c
    exact jsWhitespace_toLowerChar c
  rw [List.dropWhile_map, hpred, ← List.map_reverse, List.dropWhile_map, hpred,
    ← List.map_reverse]

theorem jsTrim_jsToLower_comm (s : String) :
    jsTrim (jsToLower s) = jsToLower (jsTrim s) := by
  show String.mk (trimList (s.data.map jsToLowerChar))
      = String.mk ((trimList s.data).map jsToLowerChar)
  rw [trimList_map_toLower]

theorem jsNorm_idem (s : String) : jsNorm (jsNorm s) = jsNorm s := by
  unfold jsNorm
  rw [jsTrim_jsToLower_comm, jsToLower_idem, jsTrim_idem]

theorem jsToLower_jsNorm_fixed (s : String) : jsToLower (jsNorm s) = jsNorm s := by
  unfold jsNorm
  rw [jsToLower_idem]

theorem trimList_eq_self_of_no_ws {l : List Char}
    (h : ∀ c ∈ l, jsWhitespace c = false) : trimList l = l := by
  unfold trimList
  have h1 : l.dropWhile jsWhitespace = l := by
    apply dropWhile_eq_self_of_head
    intro x hx
    exact h x (List.mem_of_mem_head? hx)
  rw [h1]
  have h2 : l.reverse.dropWhile jsWhitespace = l.reverse := by
    apply dropWhile_eq_self_of_head
    intro x hx
    exact h x (List.mem_reverse.mp (List.mem_of_mem_head? hx))
  rw [h2, List.reverse_reverse]

/-! ### Character classes and regex matchers

The source uses two regular expressions for identifiers:
* `EMAIL_REGEX` (api): anchored, `[A-Z0-9._%+-]+ AT [A-Z0-9.-]+ DOT [A-Z]2+`
  with the case-insensitive flag;
* `EMAIL_REGEX` (worker): the same pattern unanchored, used with `.test`
  and `.match` (substring search);
* `DOMAIN_REGEX`: anchored RFC-shaped hostname.
They are embedded as executable matchers over `List Char`. -/

def isAsciiUpper (c : Char) : Bool := decide (65 ≤ c.toNat ∧ c.toNat ≤ 90)

def isAsciiLower (c : Char) : Bool := decide (97 ≤ c.toNat ∧ c.toNat ≤ 122)

def isAsciiDigit (c : Char) : Bool := decide (48 ≤ c.toNat ∧ c.toNat ≤ 57)

def isAsciiAlpha (c : Char) : Bool := isAsciiUpper c || isAsciiLower c

/-- The class `[A-Z0-9._%+-]` under the case-insensitive flag (the
punctuation is written by code point: 46 `.`, 95 `_`, 37 `%`, 43 `+`,
45 `-`). -/
def emailLocalChar (c : Char) : Bool :=
  isAsciiAlpha c || isAsciiDigit c || c.toNat == 46 || c.toNat == 95 ||
  c.toNat == 37 || c.toNat == 43 || c.toNat == 45

/-- The class `[A-Z0-9.-]` under the case-insensitive flag. -/
def emailDomChar (c : Char) : Bool :=
  isAsciiAlpha c || isAsciiDigit c || c.toNat == 46 || c.toNat == 45

/-- The class `[A-Za-z0-9-]` of a hostname label. -/
def domainLabelChar (c : Char) : Bool :=
  isAsciiAlpha c || isAsciiDigit c || c.toNat == 45

/-- Matcher for the tail of the anchored email pattern:
`dom` must be exactly `[A-Z0-9.-]+ DOT [A-Z]2+`.  Because the final
alphabetic run contains no dot, a full match exists iff splitting at the
last dot yields a non-empty domain-character part and an all-alphabetic
part of length at least two. -/
def emailDomainTail (dom : List Char) : Bool :=
  let rev := dom.reverse
  let afterRev := rev.takeWhile (fun c => c != '.')
  match rev.drop afterRev.length with
  | [] => false
  | _ :: beforeRev =>
    decide (2 ≤ afterRev.length) && afterRev.all isAsciiAlpha &&
    decide (beforeRev ≠ []) && beforeRev.all emailDomChar

/-- The anchored `EMAIL_REGEX` of the Control API, as a full-string match.
The local part contains no at-sign, so the at-sign consumed by the
pattern is necessarily the first one in the string. -/
def emailFullMatch (l : List Char) : Bool :=
  let loc := l.takeWhile (fun c => c != '@')
  match l.drop loc.length with
  | '@' :: dom => decide (loc ≠ []) && loc.all emailLocalChar && emailDomainTail dom
  | _ => false

def emailFullMatchStr (s : String) : Bool := emailFullMatch s.data

/-- One attempt of the worker's unanchored `EMAIL_REGEX` at the start of
`l`, with JS backtracking semantics: the greedy local-part run must be
followed by an at-sign; the greedy domain run is then backtracked to the
last dot that is followed by at least two alphabetic characters. -/
def jsEmailMatchAt (l : List Char) : Option (List Char) :=
  let loc := l.takeWhile emailLocalChar
  if loc = [] then none
  else
    match l.drop loc.length with
    | '@' :: rest2 =>
      let domrun := rest2.takeWhile emailDomChar
      match ((List.range domrun.length).reverse.find? (fun q =>
          decide (1 ≤ q) && decide (domrun.get? q = some '.') &&
          decide (2 ≤ ((domrun.drop (q + 1)).takeWhile isAsciiAlpha).length))) with
      | some q =>
        some (loc ++ '@' :: domrun.take q ++ '.' :: (domrun.drop (q + 1)).takeWhile isAsciiAlpha)
      | none => none
    | _ => none

/-- Leftmost match of the worker's unanchored `EMAIL_REGEX`:
the regex engine tries each start position from the left. -/
def extractEmailList : List Char → Option (List Char)
  | [] => none
  | c :: rest =>
    match jsEmailMatchAt (c :: rest) with
    | some m => some m
    | none => extractEmailList rest

/-- `text.match(EMAIL_REGEX)` of the worker: the first matching substring. -/
def extractEmail (s : String) : Option String :=
  (extractEmailList s.data).map String.mk

/-- `EMAIL_REGEX.test(s)` of the worker (unanchored search). -/
def emailTest (s : String) : Bool :=
  (extractEmailList s.data).isSome

/-- Exact splitting of a character list at a separator character. -/
def splitOnChar (sep : Char) : List Char → List (List Char)
  | [] => [[]]
  | c :: rest =>
    if c = sep then [] :: splitOnChar sep rest
    else
      match splitOnChar sep rest with
      | [] => [[c]]
      | p :: ps => (c :: p) :: ps

/-- The anchored `DOMAIN_REGEX`: total length 1..253 of non-newline
characters (the lookahead dot excludes line terminators), first character
not a hyphen, and a body of one or more labels of 1..63 characters from
`[A-Za-z0-9-]` each followed by a dot, ending in an alphabetic top-level
label of length 2..63. -/
def domainMatch (s : String) : Bool :=
  let l := s.data
  decide (1 ≤ l.length ∧ l.length ≤ 253) &&
  l.all (fun c => c.toNat != 10 && c.toNat != 13) &&
  (match l.head? with
   | some c => c != '-'
   | none => false) &&
  (let parts := splitOnChar '.' l
   match parts.getLast? with
   | some tld =>
     decide (2 ≤ parts.length) &&
     decide (2 ≤ tld.length ∧ tld.length ≤ 63) && tld.all isAsciiAlpha &&
     parts.dropLast.all (fun lab =>
       decide (1 ≤ lab.length ∧ lab.length ≤ 63) && lab.all domainLabelChar)
   | none => false)

/-! ### Parsed rate-limit events and the event hash (worker) -/

/-- The event object produced by `RateLimitWorker.parseRatelimitLine`.
`eventTime` is milliseconds since the epoch (`Date.getTime()`). -/
structure ParsedEvent where
  userEmail : String
  bucketName : String
  action : String
  qid : Option String
  messageId : Option String
  eventTime : Nat
  source : String
  rawLine : String
deriving DecidableEq, Repr

/-- `Math.floor(event.eventTime.getTime() / 60000)`. -/
def eventMinute (e : ParsedEvent) : Nat := e.eventTime / 60000

/-- The seed string hashed by `buildEventHash`:
`[email, bucket or "ratelimit", String(minute), messageId or qid or
"none", action or "ratelimited"].join("|")`. -/
def buildEventSeed (e : ParsedEvent) : String :=
  e.userEmail ++ "|" ++ jsFalsyOr e.bucketName "ratelimit" ++ "|" ++
    natToDecimal (eventMinute e) ++ "|" ++
    jsOrStr e.messageId (jsOrStr e.qid "none") ++ "|" ++
    jsFalsyOr e.action "ratelimited"

/-- `buildEventHash` computes the SHA-256 hex digest of `buildEventSeed`.
SHA-256 is a fixed deterministic function, so the digest is a function of
the seed, and under the standard collision-freeness assumption two
digests are equal exactly when their seeds are.  We therefore model the
digest by its preimage: equalities and inequalities of `buildEventHash`
values stand for equalities and inequalities of the hashed seeds. -/
def buildEventHash (e : ParsedEvent) : String := buildEventSeed e

/-- The dedup tuple the specification says the hash is a function of. -/
def eventTuple (e : ParsedEvent) : String × String × Nat × String × String :=
  (e.userEmail, jsFalsyOr e.bucketName "ratelimit", eventMinute e,
    jsOrStr e.messageId (jsOrStr e.qid "none"), jsFalsyOr e.action "ratelimited")

theorem buildEventHash_congr {e1 e2 : ParsedEvent}
    (h : eventTuple e1 = eventTuple e2) : buildEventHash e1 = buildEventHash e2 := by
  unfold eventTuple at h
  simp only [Prod.mk.injEq] at h
  obtain ⟨h1, h2, h3, h4, h5⟩ := h
  unfold buildEventHash buildEventSeed
  rw [h1, h2, h3, h4, h5]

theorem buildEventHash_minute_inj {e1 e2 : ParsedEvent}
    (he : e1.userEmail = e2.userEmail) (hb : e1.bucketName = e2.bucketName)
    (hq : e1.qid = e2.qid) (hm : e1.messageId = e2.messageId)
    (ha : e1.action = e2.action)
    (h : buildEventHash e1 = buildEventHash e2) : eventMinute e1 = eventMinute e2 := by
  unfold buildEventHash buildEventSeed at h
  rw [he, hb, hq, hm, ha] at h
  have hdata := congrArg String.data h
  simp only [String.data_append] at hdata
  have h1 := List.append_cancel_right hdata
  have h2 := List.append_cancel_right h1
  have h3 := List.append_cancel_right h2
  have h4 := List.append_cancel_right h3
  have h5 := List.append_cancel_left h4
  exact natToDecimal_inj (String.ext h5)

/-! ### C1: the event hash and minute buckets -/

def c1EventA : ParsedEvent :=
  ⟨"ops@example.com", "rl", "ratelimited", some "ABC123", none, 59999, "rspamd_log", ""⟩

def c1EventB : ParsedEvent :=
  ⟨"ops@example.com", "rl", "ratelimited", some "ABC123", none, 60000, "rspamd_log", ""⟩

/-- C1, counterexample to the claim as stated: two parsed events with
identical email, bucket, action and message id whose timestamps differ by
one millisecond (far less than 60 seconds) nevertheless produce different
event hashes, because the timestamps fall in different minute buckets
(floor(59999/60000) = 0 but floor(60000/60000) = 1). -/
theorem eventHash_lt_60s_differs :
    c1EventB.eventTime - c1EventA.eventTime < 60000 ∧
    c1EventA.userEmail = c1EventB.userEmail ∧
    c1EventA.bucketName = c1EventB.bucketName ∧
    c1EventA.action = c1EventB.action ∧
    c1EventA.messageId = c1EventB.messageId ∧
    c1EventA.qid = c1EventB.qid ∧
    buildEventHash c1EventA ≠ buildEventHash c1EventB := by
  decide

/-- C1 (amended): `buildEventHash` is a deterministic function of the
tuple (email, bucket, floor(eventTime/60s), messageId or queueId or
"none", action); moreover, for two parsed events with identical email,
bucket, action and message/queue id, the hashes are equal exactly when
the timestamps fall in the same 60-second bucket — so timestamps in the
same minute produce the same hash and timestamps crossing a minute
boundary produce different hashes. -/
theorem eventHash_function_of_minute_tuple :
    (∀ e1 e2 : ParsedEvent, eventTuple e1 = eventTuple e2 →
      buildEventHash e1 = buildEventHash e2) ∧
    (∀ e1 e2 : ParsedEvent, e1.userEmail = e2.userEmail → e1.bucketName = e2.bucketName →
      e1.qid = e2.qid → e1.messageId = e2.messageId → e1.action = e2.action →
      (buildEventHash e1 = buildEventHash e2 ↔ eventMinute e1 = eventMinute e2)) := by
  constructor
  · exact fun e1 e2 h => buildEventHash_congr h
  · intro e1 e2 he hb hq hm ha
    constructor
    · exact buildEventHash_minute_inj he hb hq hm ha
    · intro hmin
      apply buildEventHash_congr
      unfold eventTuple
      rw [he, hb, hq, hm, ha, hmin]

/-- C1 witness: the amended theorem applied at two concrete events one
minute apart. -/
theorem eventHash_function_of_minute_tuple_witness :
    buildEventHash ⟨"ops@example.com", "rl", "ratelimited", some "ABC123", none, 120000,
        "rspamd_log", ""⟩ =
      buildEventHash ⟨"ops@example.com", "rl", "ratelimited", some "ABC123", none, 150000,
        "rspamd_log", ""⟩ ↔
    eventMinute ⟨"ops@example.com", "rl", "ratelimited", some "ABC123", none, 120000,
        "rspamd_log", ""⟩ =
      eventMinute ⟨"ops@example.com", "rl", "ratelimited", some "ABC123", none, 150000,
        "rspamd_log", ""⟩ :=
  eventHash_function_of_minute_tuple.2 _ _ rfl rfl rfl rfl rfl

/-! ### The identity store: typed rows for the SQL tables (db.sql) -/

/-- A row of `mail_domains`. -/
structure DomainRow where
  domain_name : String
  description : String
  active : Bool
  dkim_selector : String
  dkim_public_key : String
  dkim_private_key_path : String
  created_at : Nat
  updated_at : Nat
  deleted_at : Option Nat
deriving DecidableEq, Repr

/-- A row of `mail_users`. -/
structure UserRow where
  email : String
  domain_name : String
  local_part : String
  display_name : String
  password_hash : String
  quota_mb : Int
  active : Bool
  created_at : Nat
  updated_at : Nat
  disabled_at : Option Nat
deriving DecidableEq, Repr

/-- A row of `rate_limit_events` (`raw_event` kept as its JSON text). -/
structure EventRow where
  event_hash : String
  user_email : String
  bucket_name : String
  action : String
  qid : Option String
  message_id : Option String
  source : String
  event_time : Nat
  raw_event : String
  warned_at : Option Nat
  disabled_at : Option Nat
  created_at : Nat
deriving DecidableEq, Repr

/-- A row of `mailbox_state`. -/
structure MailboxStateRow where
  email : String
  domain_name : String
  status : String
  warn_count : Nat
  last_warn_at : Option Nat
  disabled_at : Option Nat
  updated_at : Nat
deriving DecidableEq, Repr

/-- A row of `audit_logs`; the JSONB `details` object is flattened to the
three keys the worker writes (`reason`, `bucket`, `error`). -/
structure AuditRow where
  actor : String
  action : String
  target_type : String
  target_id : String
  status : String
  details_reason : String
  details_bucket : Option String
  details_error : Option String
deriving DecidableEq, Repr

/-- The shared database, plus `set_active_calls`, an instrumentation list
recording each invocation of `MailServerApi.setMailboxActive` (the
Control API deactivation path), with its normalised email argument and
the enabled flag. -/
structure Db where
  mail_domains : List DomainRow
  mail_users : List UserRow
  rate_limit_events : List EventRow
  mailbox_state : List MailboxStateRow
  audit_logs : List AuditRow
  set_active_calls : List (String × Bool)
deriving DecidableEq, Repr

def emptyDb : Db := ⟨[], [], [], [], [], []⟩

/-! ### MailServerApi.setMailboxActive -/

/-- `MailServerApi.setMailboxActive(emailInput, enabled)`: normalise the
email, reject invalid ones, update the matching `mail_users` row
(stamping or clearing `disabled_at`), and report "not found" when no row
matched.  Returns the updated database and the thrown error message, if
any.  The invocation itself is recorded in `set_active_calls`. -/
def setMailboxActive (now : Nat) (db : Db) (emailInput : String) (enabled : Bool) :
    Db × Option String :=
  let email := jsNorm emailInput
  let db0 := { db with set_active_calls := db.set_active_calls ++ [(email, enabled)] }
  if ¬ emailFullMatchStr email then (db0, some "Invalid mailbox")
  else
    let rowCount := (db0.mail_users.filter (fun u => u.email == email)).length
    let users2 := db0.mail_users.map (fun u =>
      if u.email == email then
        { u with active := enabled,
                 disabled_at := if enabled then none else some now,
                 updated_at := now }
      else u)
    let db1 := { db0 with mail_users := users2 }
    if rowCount = 0 then (db1, some ("Mailbox not found: " ++ email))
    else (db1, none)

/-! ### RateLimitWorker.processEvent -/

/-- `event_time >= NOW() - (windowDays days)`, with times in ms. -/
def inWindow (now windowDays t : Nat) : Bool :=
  decide (now ≤ t + windowDays * 86400000)

/-- The worker's rolling-window count:
`SELECT COUNT(*) FROM rate_limit_events WHERE user_email = email AND
event_time >= NOW() - (windowDays days)`. -/
def eventWindowCount (rows : List EventRow) (email : String) (now windowDays : Nat) : Nat :=
  (rows.filter (fun r => r.user_email == email && inWindow now windowDays r.event_time)).length

/-- `event.userEmail.split("@")[1] || "unknown"`. -/
def emailDomainPart (email : String) : String :=
  match splitOnChar '@' email.data with
  | _ :: d :: _ => if d = [] then "unknown" else String.mk d
  | _ => "unknown"

/-- The first `mailbox_state` row matching the email
(`SELECT status FROM mailbox_state WHERE email = $1`, first row). -/
def mailboxStateFirst (db : Db) (email : String) : Option MailboxStateRow :=
  (db.mailbox_state.filter (fun r => r.email == email)).head?

/-- The `rate_limit_events` row inserted by the worker for a parsed event. -/
def mkEventRow (now : Nat) (e : ParsedEvent) : EventRow :=
  { event_hash := buildEventHash e
    user_email := e.userEmail
    bucket_name := jsFalsyOr e.bucketName "ratelimit"
    action := jsFalsyOr e.action "ratelimited"
    qid := e.qid
    message_id := e.messageId
    source := e.source
    event_time := e.eventTime
    raw_event := e.rawLine
    warned_at := none
    disabled_at := none
    created_at := now }

/-- `INSERT INTO rate_limit_events ... ON CONFLICT (event_hash) DO
NOTHING`, in the case where no conflict occurs. -/
def insertEvent (now : Nat) (db : Db) (e : ParsedEvent) : Db :=
  { db with rate_limit_events := db.rate_limit_events ++ [mkEventRow now e] }

/-- The warning upsert:
`INSERT INTO mailbox_state (email, domain, 'warning', 1, NOW(), NOW())
ON CONFLICT (email) DO UPDATE SET status, warn_count + 1, last_warn_at,
updated_at`. -/
def upsertMailboxStateWarning (states : List MailboxStateRow) (email domain : String)
    (now : Nat) : List MailboxStateRow :=
  if states.any (fun r => r.email == email) then
    states.map (fun r =>
      if r.email == email then
        { r with status := "warning", warn_count := r.warn_count + 1,
                 last_warn_at := some now, updated_at := now }
      else r)
  else
    states ++ [{ email := email, domain_name := domain, status := "warning",
                 warn_count := 1, last_warn_at := some now, disabled_at := none,
                 updated_at := now }]

/-- The disable upsert:
`INSERT INTO mailbox_state (email, domain, 'disabled', NOW(), NOW())
ON CONFLICT (email) DO UPDATE SET status, disabled_at, updated_at`
(a fresh insert takes the schema default `warn_count = 0`). -/
def upsertMailboxStateDisabled (states : List MailboxStateRow) (email domain : String)
    (now : Nat) : List MailboxStateRow :=
  if states.any (fun r => r.email == email) then
    states.map (fun r =>
      if r.email == email then
        { r with status := "disabled", disabled_at := some now, updated_at := now }
      else r)
  else
    states ++ [{ email := email, domain_name := domain, status := "disabled",
                 warn_count := 0, last_warn_at := none, disabled_at := some now,
                 updated_at := now }]

/-- `UPDATE rate_limit_events SET warned_at = NOW() WHERE event_hash = $1`. -/
def stampWarnedAt (rows : List EventRow) (h : String) (now : Nat) : List EventRow :=
  rows.map (fun r => if r.event_hash == h then { r with warned_at := some now } else r)

/-- `UPDATE rate_limit_events SET disabled_at = NOW() WHERE event_hash = $1`. -/
def stampDisabledAt (rows : List EventRow) (h : String) (now : Nat) : List EventRow :=
  rows.map (fun r => if r.event_hash == h then { r with disabled_at := some now } else r)

/-- `RateLimitWorker.processEvent`: validate the email, insert the event
with conflict-free deduplication, and for newly inserted rows run the
escalation state machine.  Returns the updated database and whether the
event was newly recorded (the `saved` flag). -/
def processEvent (now windowDays : Nat) (db : Db) (e : ParsedEvent) : Db × Bool :=
  if e.userEmail = "" ∨ ¬ emailTest e.userEmail then (db, false)
  else
    let eventHash := buildEventHash e
    if db.rate_limit_events.any (fun r => r.event_hash == eventHash) then
      (db, false)
    else
      let db1 := insertEvent now db e
      let count := eventWindowCount db1.rate_limit_events e.userEmail now windowDays
      let domain := emailDomainPart e.userEmail
      if count = 1 then
        let db2 := { db1 with
          mailbox_state := upsertMailboxStateWarning db1.mailbox_state e.userEmail domain now }
        let db3 := { db2 with
          rate_limit_events := stampWarnedAt db2.rate_limit_events eventHash now }
        let db4 := { db3 with
          audit_logs := db3.audit_logs ++
            [⟨"system-worker", "mailbox_warned", "mailbox", e.userEmail, "warning",
              "ratelimit_first_hit", some e.bucketName, none⟩] }
        (db4, true)
      else if 2 ≤ count then
        let alreadyDisabled :=
          match mailboxStateFirst db1 e.userEmail with
          | some r => r.status == "disabled"
          | none => false
        if alreadyDisabled then (db1, true)
        else
          let callRes := setMailboxActive now db1 e.userEmail false
          let dbA := callRes.1
          let disableErr := callRes.2
          let disableStatus := if disableErr = none then "success" else "error"
          let db2 := { dbA with
            mailbox_state := upsertMailboxStateDisabled dbA.mailbox_state e.userEmail domain now }
          let db3 := { db2 with
            rate_limit_events := stampDisabledAt db2.rate_limit_events eventHash now }
          let db4 := { db3 with
            audit_logs := db3.audit_logs ++
              [⟨"system-worker", "mailbox_disabled", "mailbox", e.userEmail, disableStatus,
                "ratelimit_second_hit", some e.bucketName, disableErr⟩] }
          (db4, true)
      else (db1, true)

/-- One worker run over a batch of parsed events (the loop in `runOnce`). -/
def processEvents (now windowDays : Nat) (db : Db) (es : List ParsedEvent) : Db :=
  es.foldl (fun d e => (processEvent now windowDays d e).1) db

/-- The multiset of event hashes currently recorded. -/
def eventHashes (db : Db) : List String :=
  db.rate_limit_events.map (fun r => r.event_hash)

/-! ### Projection lemmas for setMailboxActive -/

theorem setMailboxActive_rate_limit_events (now : Nat) (db : Db) (em : String) (b : Bool) :
    ((setMailboxActive now db em b).1).rate_limit_events = db.rate_limit_events := by
  unfold setMailboxActive
  dsimp only
  split
  · rfl
  · split <;> rfl

theorem setMailboxActive_mailbox_state (now : Nat) (db : Db) (em : String) (b : Bool) :
    ((setMailboxActive now db em b).1).mailbox_state = db.mailbox_state := by
  unfold setMailboxActive
  dsimp only
  split
  · rfl
  · split <;> rfl

theorem setMailboxActive_audit_logs (now : Nat) (db : Db) (em : String) (b : Bool) :
    ((setMailboxActive now db em b).1).audit_logs = db.audit_logs := by
  unfold setMailboxActive
  dsimp only
  split
  · rfl
  · split <;> rfl

theorem setMailboxActive_mail_domains (now : Nat) (db : Db) (em : String) (b : Bool) :
    ((setMailboxActive now db em b).1).mail_domains = db.mail_domains := by
  unfold setMailboxActive
  dsimp only
  split
  · rfl
  · split <;> rfl

theorem setMailboxActive_calls (now : Nat) (db : Db) (em : String) (b : Bool) :
    ((setMailboxActive now db em b).1).set_active_calls
      = db.set_active_calls ++ [(jsNorm em, b)] := by
  unfold setMailboxActive
  dsimp only
  split
  · rfl
  · split <;> rfl

/-! ### Hash bookkeeping for processEvent -/

theorem map_event_hash_stampWarnedAt (rows : List EventRow) (h : String) (now : Nat) :
    (stampWarnedAt rows h now).map (fun r => r.event_hash)
      = rows.map (fun r => r.event_hash) := by
  unfold stampWarnedAt
  rw [List.map_map]
  apply List.map_congr_left
  intro r _
  by_cases hr : r.event_hash = h <;> simp [hr]

theorem map_event_hash_stampDisabledAt (rows : List EventRow) (h : String) (now : Nat) :
    (stampDisabledAt rows h now).map (fun r => r.event_hash)
      = rows.map (fun r => r.event_hash) := by
  unfold stampDisabledAt
  rw [List.map_map]
  apply List.map_congr_left
  intro r _
  by_cases hr : r.event_hash = h <;> simp [hr]

theorem processEvent_skip {db : Db} {now wd : Nat} {e : ParsedEvent}
    (h : buildEventHash e ∈ eventHashes db) :
    processEvent now wd db e = (db, false) := by
  unfold processEvent
  by_cases hv : e.userEmail = "" ∨ ¬ emailTest e.userEmail
  · rw [if_pos hv]
  · rw [if_neg hv]
    have hany : (db.rate_limit_events.any (fun r => r.event_hash == buildEventHash e)) = true := by
      rw [List.any_eq_true]
      obtain ⟨r, hr, he⟩ := List.mem_map.mp h
      exact ⟨r, hr, beq_iff_eq.mpr he⟩
    simp only [hany, if_true]

theorem processEvent_invalid {db : Db} {now wd : Nat} {e : ParsedEvent}
    (hv : e.userEmail = "" ∨ ¬ emailTest e.userEmail) :
    processEvent now wd db e = (db, false) := by
  unfold processEvent
  rw [if_pos hv]

theorem processEvent_inserts {db : Db} {now wd : Nat} {e : ParsedEvent}
    (hv : ¬(e.userEmail = "" ∨ ¬ emailTest e.userEmail))
    (hnew : buildEventHash e ∉ eventHashes db) :
    eventHashes (processEvent now wd db e).1 = eventHashes db ++ [buildEventHash e] := by
  have hany : (db.rate_limit_events.any (fun r => r.event_hash == buildEventHash e)) = false := by
    rw [List.any_eq_false]
    intro r hr hbe
    exact hnew (List.mem_map.mpr ⟨r, hr, beq_iff_eq.mp hbe⟩)
  unfold processEvent
  rw [if_neg hv]
  simp only [hany, Bool.false_eq_true, if_false]
  have hins : eventHashes (insertEvent now db e) = eventHashes db ++ [buildEventHash e] := by
    unfold eventHashes insertEvent mkEventRow
    simp
  split
  · unfold eventHashes at hins ⊢
    simp only [map_event_hash_stampWarnedAt]
    exact hins
  · split
    · split
      · exact hins
      · unfold eventHashes at hins ⊢
        simp only [map_event_hash_stampDisabledAt, setMailboxActive_rate_limit_events]
        exact hins
    · exact hins

theorem processEvent_hashes_mono {db : Db} {now wd : Nat} {e : ParsedEvent} {h : String}
    (hmem : h ∈ eventHashes db) : h ∈ eventHashes (processEvent now wd db e).1 := by
  by_cases hv : e.userEmail = "" ∨ ¬ emailTest e.userEmail
  · rw [processEvent_invalid hv]
    exact hmem
  · by_cases hmem2 : buildEventHash e ∈ eventHashes db
    · rw [processEvent_skip hmem2]
      exact hmem
    · rw [processEvent_inserts hv hmem2]
      exact List.mem_append_left _ hmem

theorem processEvent_hash_mem {db : Db} {now wd : Nat} {e : ParsedEvent}
    (hv : ¬(e.userEmail = "" ∨ ¬ emailTest e.userEmail)) :
    buildEventHash e ∈ eventHashes (processEvent now wd db e).1 := by
  by_cases hmem : buildEventHash e ∈ eventHashes db
  · rw [processEvent_skip hmem]
    exact hmem
  · rw [processEvent_inserts hv hmem]
    exact List.mem_append_right _ (List.mem_singleton.mpr rfl)

theorem processEvent_nodup {db : Db} {now wd : Nat} {e : ParsedEvent}
    (hnd : (eventHashes db).Nodup) : (eventHashes (processEvent now wd db e).1).Nodup := by
  by_cases hv : e.userEmail = "" ∨ ¬ emailTest e.userEmail
  · rw [processEvent_invalid hv]
    exact hnd
  · by_cases hmem : buildEventHash e ∈ eventHashes db
    · rw [processEvent_skip hmem]
      exact hnd
    · rw [processEvent_inserts hv hmem]
      rw [List.nodup_append]
      exact ⟨hnd, List.nodup_singleton _, by simpa [List.disjoint_singleton] using hmem⟩

theorem processEvents_hashes_mono {now wd : Nat} {h : String} :
    ∀ (es : List ParsedEvent) (db : Db), h ∈ eventHashes db →
      h ∈ eventHashes (processEvents now wd db es) := by
  intro es
  induction es with
  | nil => intro db hmem; exact hmem
  | cons a t ih =>
    intro db hmem
    exact ih _ (processEvent_hashes_mono hmem)

theorem processEvents_hash_mem {now wd : Nat} :
    ∀ (es : List ParsedEvent) (db : Db) (e : ParsedEvent), e ∈ es →
      ¬(e.userEmail = "" ∨ ¬ emailTest e.userEmail) →
      buildEventHash e ∈ eventHashes (processEvents now wd db es) := by
  intro es
  induction es with
  | nil => intro db e he; simp at he
  | cons a t ih =>
    intro db e he hv
    rcases List.mem_cons.mp he with rfl | hmem
    · exact processEvents_hashes_mono t _ (processEvent_hash_mem hv)
    · exact ih _ e hmem hv

theorem processEvents_nodup {now wd : Nat} :
    ∀ (es : List ParsedEvent) (db : Db), (eventHashes db).Nodup →
      (eventHashes (processEvents now wd db es)).Nodup := by
  intro es
  induction es with
  | nil => intro db hnd; exact hnd
  | cons a t ih => intro db hnd; exact ih _ (processEvent_nodup hnd)

theorem processEvents_noop {now wd : Nat} :
    ∀ (es : List ParsedEvent) (db : Db),
      (∀ e ∈ es, ¬(e.userEmail = "" ∨ ¬ emailTest e.userEmail) →
        buildEventHash e ∈ eventHashes db) →
      processEvents now wd db es = db := by
  intro es
  induction es with
  | nil => intro db _; rfl
  | cons a t ih =>
    intro db hmem
    have hstep : (processEvent now wd db a).1 = db := by
      by_cases hv : a.userEmail = "" ∨ ¬ emailTest a.userEmail
      · rw [processEvent_invalid hv]
      · rw [processEvent_skip (hmem a (List.mem_cons_self a t) hv)]
    show processEvents now wd (processEvent now wd db a).1 t = db
    rw [hstep]
    exact ih db (fun e he hv => hmem e (List.mem_cons_of_mem a he) hv)

/-- C2: worker ingestion is idempotent.  (1) An event whose hash is
already recorded takes the on-conflict-do-nothing path: it returns no
row (`saved = false`) and leaves the database — including mailbox
states, audits and deactivation calls — completely unchanged, so
enforcement runs only for newly inserted rows.  (2) Feeding the same
batch of parsed lines to the worker a second time (at any later run
time) is a no-op: the database after the second pass equals the database
after the first, so re-feeding causes no additional warning or disable
transition for any mailbox.  (3) Distinctness of event hashes is
preserved: at most one `rate_limit_events` row exists per event hash. -/
theorem worker_ingestion_idempotent :
    (∀ (db : Db) (now wd : Nat) (e : ParsedEvent),
      buildEventHash e ∈ eventHashes db → processEvent now wd db e = (db, false)) ∧
    (∀ (db : Db) (now wd now2 wd2 : Nat) (es : List ParsedEvent),
      processEvents now2 wd2 (processEvents now wd db es) es = processEvents now wd db es) ∧
    (∀ (db : Db) (now wd : Nat) (es : List ParsedEvent),
      (eventHashes db).Nodup → (eventHashes (processEvents now wd db es)).Nodup) := by
  refine ⟨fun db now wd e h => processEvent_skip h, ?_, fun db now wd es h => processEvents_nodup es db h⟩
  intro db now wd now2 wd2 es
  exact processEvents_noop es _ (fun e he hv => processEvents_hash_mem es db e he hv)

def c2Event : ParsedEvent :=
  ⟨"ops@example.com", "rl", "ratelimited", none, none, 0, "rspamd_log", "raw"⟩

def c2Db : Db := { emptyDb with rate_limit_events := [mkEventRow 0 c2Event] }

/-- C2 witness: the idempotence theorem applied at a concrete database
and a concrete one-event batch. -/
theorem worker_ingestion_idempotent_witness :
    processEvent 5 7 c2Db c2Event = (c2Db, false) ∧
    processEvents 9 7 (processEvents 5 7 emptyDb [c2Event]) [c2Event]
      = processEvents 5 7 emptyDb [c2Event] ∧
    (eventHashes (processEvents 5 7 emptyDb [c2Event])).Nodup :=
  ⟨worker_ingestion_idempotent.1 c2Db 5 7 c2Event (by decide),
   worker_ingestion_idempotent.2.1 emptyDb 5 7 9 7 [c2Event],
   worker_ingestion_idempotent.2.2 emptyDb 5 7 [c2Event] (by decide)⟩

/-! ### Branch lemmas for processEvent -/

theorem hash_any_false {db : Db} {e : ParsedEvent}
    (hnew : buildEventHash e ∉ eventHashes db) :
    (db.rate_limit_events.any (fun r => r.event_hash == buildEventHash e)) = false := by
  rw [List.any_eq_false]
  intro r hr hbe
  exact hnew (List.mem_map.mpr ⟨r, hr, beq_iff_eq.mp hbe⟩)

theorem eventWindowCount_append (rows1 rows2 : List EventRow) (em : String) (now wd : Nat) :
    eventWindowCount (rows1 ++ rows2) em now wd
      = eventWindowCount rows1 em now wd + eventWindowCount rows2 em now wd := by
  unfold eventWindowCount
  rw [List.filter_append, List.length_append]

theorem eventWindowCount_zero_of_no_email {rows : List EventRow} {em : String} (now wd : Nat)
    (h : rows.filter (fun r => r.user_email == em) = []) :
    eventWindowCount rows em now wd = 0 := by
  unfold eventWindowCount
  rw [List.length_eq_zero, List.filter_eq_nil_iff]
  rw [List.filter_eq_nil_iff] at h
  intro a ha hand
  simp only [Bool.and_eq_true] at hand
  exact h a ha hand.1

theorem eventWindowCount_single_mk (n : Nat) (e : ParsedEvent) (now wd : Nat) :
    eventWindowCount [mkEventRow n e] e.userEmail now wd
      = if inWindow now wd e.eventTime then 1 else 0 := by
  unfold eventWindowCount mkEventRow
  by_cases hw : inWindow now wd e.eventTime <;> simp [hw]

theorem eventWindowCount_stampWarnedAt (rows : List EventRow) (h : String) (n : Nat)
    (em : String) (now wd : Nat) :
    eventWindowCount (stampWarnedAt rows h n) em now wd = eventWindowCount rows em now wd := by
  unfold eventWindowCount stampWarnedAt
  rw [List.filter_map, List.length_map]
  congr 1
  apply List.filter_congr
  intro r _
  by_cases hr : r.event_hash = h <;> simp [hr]

theorem eventWindowCount_stampDisabledAt (rows : List EventRow) (h : String) (n : Nat)
    (em : String) (now wd : Nat) :
    eventWindowCount (stampDisabledAt rows h n) em now wd = eventWindowCount rows em now wd := by
  unfold eventWindowCount stampDisabledAt
  rw [List.filter_map, List.length_map]
  congr 1
  apply List.filter_congr
  intro r _
  by_cases hr : r.event_hash = h <;> simp [hr]

theorem any_email_false_of_filter_nil {states : List MailboxStateRow} {em : String}
    (h : states.filter (fun r => r.email == em) = []) :
    states.any (fun r => r.email == em) = false := by
  rw [List.any_eq_false]
  rw [List.filter_eq_nil_iff] at h
  exact h

theorem filter_upsertWarning_fresh {states : List MailboxStateRow} {em : String}
    (dom : String) (now : Nat) (h : states.filter (fun r => r.email == em) = []) :
    (upsertMailboxStateWarning states em dom now).filter (fun r => r.email == em)
      = [⟨em, dom, "warning", 1, some now, none, now⟩] := by
  unfold upsertMailboxStateWarning
  rw [any_email_false_of_filter_nil h]
  simp only [Bool.false_eq_true, if_false]
  rw [List.filter_append, h]
  simp

theorem filter_upsertDisabled_of_single {states : List MailboxStateRow} {em : String}
    {r0 : MailboxStateRow} (dom : String) (now : Nat)
    (h : states.filter (fun r => r.email == em) = [r0]) :
    (upsertMailboxStateDisabled states em dom now).filter (fun r => r.email == em)
      = [{ r0 with status := "disabled", disabled_at := some now, updated_at := now }] := by
  have hmem : r0 ∈ states.filter (fun r => r.email == em) := by
    rw [h]
    exact List.mem_singleton.mpr rfl
  obtain ⟨hr0, hp0⟩ := List.mem_filter.mp hmem
  have hany : states.any (fun r => r.email == em) = true :=
    List.any_eq_true.mpr ⟨r0, hr0, hp0⟩
  unfold upsertMailboxStateDisabled
  rw [hany]
  simp only [if_true]
  rw [List.filter_map]
  have hcong : states.filter
      ((fun r => r.email == em) ∘ (fun r =>
        if r.email == em then
          { r with status := "disabled", disabled_at := some now, updated_at := now }
        else r))
      = states.filter (fun r => r.email == em) := by
    apply List.filter_congr
    intro r _
    by_cases hr : r.email == em
    · simp only [Function.comp]
      rw [if_pos hr]
    · simp only [Function.comp]
      rw [if_neg hr]
  rw [hcong, h]
  simp only [List.map_cons, List.map_nil]
  rw [if_pos hp0]

theorem processEvent_warn_eq {db : Db} {now wd : Nat} {e : ParsedEvent}
    (hv : ¬(e.userEmail = "" ∨ ¬ emailTest e.userEmail))
    (hnew : buildEventHash e ∉ eventHashes db)
    (hcount : eventWindowCount (insertEvent now db e).rate_limit_events e.userEmail now wd = 1) :
    processEvent now wd db e =
      ({ db with
          rate_limit_events :=
            stampWarnedAt (insertEvent now db e).rate_limit_events (buildEventHash e) now,
          mailbox_state :=
            upsertMailboxStateWarning db.mailbox_state e.userEmail
              (emailDomainPart e.userEmail) now,
          audit_logs := db.audit_logs ++
            [⟨"system-worker", "mailbox_warned", "mailbox", e.userEmail, "warning",
              "ratelimit_first_hit", some e.bucketName, none⟩] }, true) := by
  unfold processEvent
  rw [if_neg hv]
  simp only [hash_any_false hnew, Bool.false_eq_true, if_false]
  rw [if_pos hcount]
  rfl

theorem processEvent_disable_eq {db : Db} {now wd : Nat} {e : ParsedEvent}
    (hv : ¬(e.userEmail = "" ∨ ¬ emailTest e.userEmail))
    (hnew : buildEventHash e ∉ eventHashes db)
    (hcount : 2 ≤ eventWindowCount (insertEvent now db e).rate_limit_events e.userEmail now wd)
    (hnd : (match mailboxStateFirst (insertEvent now db e) e.userEmail with
            | some r => r.status == "disabled"
            | none => false) = false) :
    processEvent now wd db e =
      ({ (setMailboxActive now (insertEvent now db e) e.userEmail false).1 with
          mailbox_state :=
            upsertMailboxStateDisabled
              ((setMailboxActive now (insertEvent now db e) e.userEmail false).1).mailbox_state
              e.userEmail (emailDomainPart e.userEmail) now,
          rate_limit_events :=
            stampDisabledAt
              ((setMailboxActive now (insertEvent now db e) e.userEmail false).1).rate_limit_events
              (buildEventHash e) now,
          audit_logs :=
            ((setMailboxActive now (insertEvent now db e) e.userEmail false).1).audit_logs ++
              [⟨"system-worker", "mailbox_disabled", "mailbox", e.userEmail,
                (if (setMailboxActive now (insertEvent now db e) e.userEmail false).2 = none
                  then "success" else "error"),
                "ratelimit_second_hit", some e.bucketName,
                (setMailboxActive now (insertEvent now db e) e.userEmail false).2⟩] }, true) := by
  unfold processEvent
  rw [if_neg hv]
  simp only [hash_any_false hnew, Bool.false_eq_true, if_false]
  rw [if_neg (by omega), if_pos hcount, if_neg (by simp [hnd])]

theorem processEvent_alreadyDisabled_eq {db : Db} {now wd : Nat} {e : ParsedEvent}
    (hv : ¬(e.userEmail = "" ∨ ¬ emailTest e.userEmail))
    (hnew : buildEventHash e ∉ eventHashes db)
    (hcount : 2 ≤ eventWindowCount (insertEvent now db e).rate_limit_events e.userEmail now wd)
    (hd : (match mailboxStateFirst (insertEvent now db e) e.userEmail with
           | some r => r.status == "disabled"
           | none => false) = true) :
    processEvent now wd db e = (insertEvent now db e, true) := by
  unfold processEvent
  rw [if_neg hv]
  simp only [hash_any_false hnew, Bool.false_eq_true, if_false]
  rw [if_neg (by omega), if_pos hcount, if_pos hd]

/-! ### C4: the disable path is decoupled from deactivation failures -/

theorem upsertDisabled_filter_all (states : List MailboxStateRow) (em dom : String) (now : Nat) :
    ∀ r ∈ (upsertMailboxStateDisabled states em dom now).filter (fun r => r.email == em),
      r.status = "disabled" ∧ r.disabled_at = some now := by
  intro r hr
  obtain ⟨hmem, hem⟩ := List.mem_filter.mp hr
  unfold upsertMailboxStateDisabled at hmem
  by_cases hany : states.any (fun r => r.email == em) = true
  · rw [if_pos hany] at hmem
    obtain ⟨r0, hr0, hfr⟩ := List.mem_map.mp hmem
    by_cases h0 : r0.email == em
    · rw [if_pos h0] at hfr
      rw [← hfr]
      exact ⟨rfl, rfl⟩
    · rw [if_neg h0] at hfr
      rw [← hfr] at hem
      exact absurd hem h0
  · rw [if_neg hany] at hmem
    rcases List.mem_append.mp hmem with hmem2 | hmem2
    · exact absurd (List.any_eq_true.mpr ⟨r, hmem2, hem⟩) hany
    · rw [List.mem_singleton] at hmem2
      rw [hmem2]
      exact ⟨rfl, rfl⟩

theorem upsertDisabled_filter_ne_nil (states : List MailboxStateRow) (em dom : String)
    (now : Nat) :
    (upsertMailboxStateDisabled states em dom now).filter (fun r => r.email == em) ≠ [] := by
  intro hnil
  rw [List.filter_eq_nil_iff] at hnil
  unfold upsertMailboxStateDisabled at hnil
  by_cases hany : states.any (fun r => r.email == em) = true
  · rw [if_pos hany] at hnil
    obtain ⟨r0, hr0, h0⟩ := List.any_eq_true.mp hany
    have hmem : (if r0.email == em then
        { r0 with status := "disabled", disabled_at := some now, updated_at := now }
      else r0) ∈ states.map (fun r =>
        if r.email == em then
          { r with status := "disabled", disabled_at := some now, updated_at := now }
        else r) := List.mem_map_of_mem _ hr0
    rw [if_pos h0] at hmem
    exact hnil _ hmem h0
  · rw [if_neg hany] at hnil
    exact hnil _ (List.mem_append_right _ (List.mem_singleton.mpr rfl)) (beq_self_eq_true em)

theorem stampDisabledAt_filter_all (rows : List EventRow) (h : String) (now : Nat) :
    ∀ r ∈ (stampDisabledAt rows h now).filter (fun r => r.event_hash == h),
      r.disabled_at = some now := by
  intro r hr
  obtain ⟨hmem, hhash⟩ := List.mem_filter.mp hr
  unfold stampDisabledAt at hmem
  obtain ⟨r0, hr0, hfr⟩ := List.mem_map.mp hmem
  by_cases h0 : r0.event_hash == h
  · rw [if_pos h0] at hfr
    rw [← hfr]
  · rw [if_neg h0] at hfr
    rw [← hfr] at hhash
    exact absurd hhash h0

/-- C4: when the in-window count is at least 2 and the mailbox state is
not already disabled, the worker invokes the Control API deactivation
path (`setMailboxActive(email, false)`) exactly once and — regardless of
whether that call succeeds or throws — records the event, marks every
matching `mailbox_state` row `disabled` with `disabledAt` stamped,
stamps the triggering event's `disabledAt`, and appends exactly one
`mailbox_disabled` audit record whose status is "success" or "error"
according to the call outcome and which carries the error text.  The
deactivation failure never aborts the state transition and is not
retried (the call list grows by exactly one entry). -/
theorem worker_disable_decoupled {db : Db} {now wd : Nat} {e : ParsedEvent}
    (hv : ¬(e.userEmail = "" ∨ ¬ emailTest e.userEmail))
    (hnew : buildEventHash e ∉ eventHashes db)
    (hcount : 2 ≤ eventWindowCount (insertEvent now db e).rate_limit_events e.userEmail now wd)
    (hnd : (match mailboxStateFirst (insertEvent now db e) e.userEmail with
            | some r => r.status == "disabled"
            | none => false) = false) :
    (processEvent now wd db e).2 = true ∧
    ((processEvent now wd db e).1).set_active_calls
      = db.set_active_calls ++ [(jsNorm e.userEmail, false)] ∧
    (∀ r ∈ ((processEvent now wd db e).1).mailbox_state.filter
        (fun r => r.email == e.userEmail),
      r.status = "disabled" ∧ r.disabled_at = some now) ∧
    ((processEvent now wd db e).1).mailbox_state.filter
        (fun r => r.email == e.userEmail) ≠ [] ∧
    (∀ r ∈ ((processEvent now wd db e).1).rate_limit_events.filter
        (fun r => r.event_hash == buildEventHash e),
      r.disabled_at = some now) ∧
    ((processEvent now wd db e).1).audit_logs = db.audit_logs ++
      [⟨"system-worker", "mailbox_disabled", "mailbox", e.userEmail,
        (if (setMailboxActive now (insertEvent now db e) e.userEmail false).2 = none
          then "success" else "error"),
        "ratelimit_second_hit", some e.bucketName,
        (setMailboxActive now (insertEvent now db e) e.userEmail false).2⟩] := by
  rw [processEvent_disable_eq hv hnew hcount hnd]
  refine ⟨rfl, ?_, ?_, ?_, ?_, ?_⟩
  · show ((setMailboxActive now (insertEvent now db e) e.userEmail false).1).set_active_calls = _
    rw [setMailboxActive_calls]
    rfl
  · intro r hr
    exact upsertDisabled_filter_all _ _ _ _ r hr
  · exact upsertDisabled_filter_ne_nil _ _ _ _
  · intro r hr
    exact stampDisabledAt_filter_all _ _ _ r hr
  · show ((setMailboxActive now (insertEvent now db e) e.userEmail false).1).audit_logs ++ _ = _
    rw [setMailboxActive_audit_logs]
    rfl

def c4Event0 : ParsedEvent :=
  ⟨"ops@example.com", "rl", "ratelimited", some "A1", none, 0, "rspamd_log", ""⟩

def c4Event : ParsedEvent :=
  ⟨"ops@example.com", "rl", "ratelimited", some "B2", none, 60000, "rspamd_log", ""⟩

def c4Db : Db :=
  { emptyDb with
    rate_limit_events := [mkEventRow 0 c4Event0],
    mailbox_state := [⟨"ops@example.com", "example.com", "warning", 1, some 0, none, 0⟩] }

/-- C4 witness: the decoupled-disable theorem applied at a concrete
database holding one prior in-window event and a warning state row. -/
theorem worker_disable_decoupled_witness :
    (processEvent 60000 7 c4Db c4Event).2 = true ∧
    ((processEvent 60000 7 c4Db c4Event).1).set_active_calls
      = c4Db.set_active_calls ++ [(jsNorm c4Event.userEmail, false)] ∧
    (∀ r ∈ ((processEvent 60000 7 c4Db c4Event).1).mailbox_state.filter
        (fun r => r.email == c4Event.userEmail),
      r.status = "disabled" ∧ r.disabled_at = some 60000) ∧
    ((processEvent 60000 7 c4Db c4Event).1).mailbox_state.filter
        (fun r => r.email == c4Event.userEmail) ≠ [] ∧
    (∀ r ∈ ((processEvent 60000 7 c4Db c4Event).1).rate_limit_events.filter
        (fun r => r.event_hash == buildEventHash c4Event),
      r.disabled_at = some 60000) ∧
    ((processEvent 60000 7 c4Db c4Event).1).audit_logs = c4Db.audit_logs ++
      [⟨"system-worker", "mailbox_disabled", "mailbox", c4Event.userEmail,
        (if (setMailboxActive 60000 (insertEvent 60000 c4Db c4Event)
            c4Event.userEmail false).2 = none
          then "success" else "error"),
        "ratelimit_second_hit", some c4Event.bucketName,
        (setMailboxActive 60000 (insertEvent 60000 c4Db c4Event) c4Event.userEmail false).2⟩] :=
  worker_disable_decoupled (by decide) (by decide) (by decide) (by decide)

/-! ### C3: the per-mailbox escalation state machine -/

/-- One worker step: the database after processing a single event. -/
def wkStep (now wd : Nat) (db : Db) (e : ParsedEvent) : Db :=
  (processEvent now wd db e).1

/-- C3: for a mailbox with no prior events, no prior state row and no
prior deactivation calls, the first ingested rate-limit line moves its
MailboxState to warning with warnCount 1 and triggers no deactivation;
a second line (with a fresh dedup hash, inside the rolling window) moves
it to disabled and invokes the Control API deactivation path exactly
once; a third line arriving while the state is already disabled is
recorded (one more event row, saved = true) but causes no further state
change, deactivation call or audit entry. -/
theorem worker_escalation_state_machine
    (db0 : Db) (wd now1 now2 now3 : Nat) (e1 e2 e3 : ParsedEvent)
    (hem2 : e2.userEmail = e1.userEmail) (hem3 : e3.userEmail = e1.userEmail)
    (hv1 : ¬(e1.userEmail = "" ∨ ¬ emailTest e1.userEmail))
    (hnoev : db0.rate_limit_events.filter (fun r => r.user_email == e1.userEmail) = [])
    (hnost : db0.mailbox_state.filter (fun r => r.email == e1.userEmail) = [])
    (hcalls : db0.set_active_calls = [])
    (hh1 : buildEventHash e1 ∉ eventHashes db0)
    (hh2 : buildEventHash e2 ∉ eventHashes db0)
    (hh21 : buildEventHash e2 ≠ buildEventHash e1)
    (hh3 : buildEventHash e3 ∉ eventHashes db0)
    (hh31 : buildEventHash e3 ≠ buildEventHash e1)
    (hh32 : buildEventHash e3 ≠ buildEventHash e2)
    (hw11 : inWindow now1 wd e1.eventTime = true)
    (hw21 : inWindow now2 wd e1.eventTime = true)
    (hw22 : inWindow now2 wd e2.eventTime = true)
    (hw31 : inWindow now3 wd e1.eventTime = true)
    (hw32 : inWindow now3 wd e2.eventTime = true)
    (hw33 : inWindow now3 wd e3.eventTime = true) :
    (wkStep now1 wd db0 e1).mailbox_state.filter (fun r => r.email == e1.userEmail)
        = [⟨e1.userEmail, emailDomainPart e1.userEmail, "warning", 1, some now1, none, now1⟩] ∧
    (wkStep now1 wd db0 e1).set_active_calls = [] ∧
    (wkStep now2 wd (wkStep now1 wd db0 e1) e2).mailbox_state.filter
        (fun r => r.email == e1.userEmail)
        = [⟨e1.userEmail, emailDomainPart e1.userEmail, "disabled", 1, some now1,
            some now2, now2⟩] ∧
    (wkStep now2 wd (wkStep now1 wd db0 e1) e2).set_active_calls
        = [(jsNorm e1.userEmail, false)] ∧
    (processEvent now3 wd (wkStep now2 wd (wkStep now1 wd db0 e1) e2) e3).2 = true ∧
    (wkStep now3 wd (wkStep now2 wd (wkStep now1 wd db0 e1) e2) e3).mailbox_state
        = (wkStep now2 wd (wkStep now1 wd db0 e1) e2).mailbox_state ∧
    (wkStep now3 wd (wkStep now2 wd (wkStep now1 wd db0 e1) e2) e3).set_active_calls
        = (wkStep now2 wd (wkStep now1 wd db0 e1) e2).set_active_calls ∧
    (wkStep now3 wd (wkStep now2 wd (wkStep now1 wd db0 e1) e2) e3).audit_logs
        = (wkStep now2 wd (wkStep now1 wd db0 e1) e2).audit_logs ∧
    (wkStep now3 wd (wkStep now2 wd (wkStep now1 wd db0 e1) e2) e3).rate_limit_events.length
        = (wkStep now2 wd (wkStep now1 wd db0 e1) e2).rate_limit_events.length + 1 := by
  have hv2 : ¬(e2.userEmail = "" ∨ ¬ emailTest e2.userEmail) := by rw [hem2]; exact hv1
  have hv3 : ¬(e3.userEmail = "" ∨ ¬ emailTest e3.userEmail) := by rw [hem3]; exact hv1
  -- step 1: first hit, warning
  have hcount1 :
      eventWindowCount (insertEvent now1 db0 e1).rate_limit_events e1.userEmail now1 wd = 1 := by
    show eventWindowCount (db0.rate_limit_events ++ [mkEventRow now1 e1])
        e1.userEmail now1 wd = 1
    rw [eventWindowCount_append, eventWindowCount_zero_of_no_email now1 wd hnoev,
      eventWindowCount_single_mk, if_pos hw11]
  have hstep1 := processEvent_warn_eq hv1 hh1 hcount1
  have hdb1 : wkStep now1 wd db0 e1 =
      { db0 with
        rate_limit_events :=
          stampWarnedAt (insertEvent now1 db0 e1).rate_limit_events (buildEventHash e1) now1,
        mailbox_state :=
          upsertMailboxStateWarning db0.mailbox_state e1.userEmail
            (emailDomainPart e1.userEmail) now1,
        audit_logs := db0.audit_logs ++
          [⟨"system-worker", "mailbox_warned", "mailbox", e1.userEmail, "warning",
            "ratelimit_first_hit", some e1.bucketName, none⟩] } := by
    show (processEvent now1 wd db0 e1).1 = _
    rw [hstep1]
  have hst1 : (wkStep now1 wd db0 e1).mailbox_state.filter (fun r => r.email == e1.userEmail)
      = [⟨e1.userEmail, emailDomainPart e1.userEmail, "warning", 1, some now1, none, now1⟩] := by
    rw [hdb1]
    exact filter_upsertWarning_fresh (emailDomainPart e1.userEmail) now1 hnost
  have hcalls1 : (wkStep now1 wd db0 e1).set_active_calls = [] := by
    rw [hdb1]
    exact hcalls
  have hhash1 : eventHashes (wkStep now1 wd db0 e1)
      = eventHashes db0 ++ [buildEventHash e1] := processEvent_inserts hv1 hh1
  have hev1 : (wkStep now1 wd db0 e1).rate_limit_events
      = stampWarnedAt (db0.rate_limit_events ++ [mkEventRow now1 e1]) (buildEventHash e1)
          now1 := by
    rw [hdb1]
    rfl
  -- step 2: second hit, disable
  have hnew2 : buildEventHash e2 ∉ eventHashes (wkStep now1 wd db0 e1) := by
    rw [hhash1]
    intro hmem
    rcases List.mem_append.mp hmem with h | h
    · exact hh2 h
    · exact hh21 (List.mem_singleton.mp h)
  have hcount2 : 2 ≤ eventWindowCount
      (insertEvent now2 (wkStep now1 wd db0 e1) e2).rate_limit_events e2.userEmail now2 wd := by
    show 2 ≤ eventWindowCount
      ((wkStep now1 wd db0 e1).rate_limit_events ++ [mkEventRow now2 e2]) e2.userEmail now2 wd
    rw [hev1, eventWindowCount_append, eventWindowCount_stampWarnedAt,
      eventWindowCount_append]
    have hz : eventWindowCount db0.rate_limit_events e2.userEmail now2 wd = 0 :=
      eventWindowCount_zero_of_no_email now2 wd (by rw [hem2]; exact hnoev)
    have h1c : eventWindowCount [mkEventRow now1 e1] e2.userEmail now2 wd = 1 := by
      rw [hem2, eventWindowCount_single_mk, if_pos hw21]
    have h2c : eventWindowCount [mkEventRow now2 e2] e2.userEmail now2 wd = 1 := by
      rw [eventWindowCount_single_mk, if_pos hw22]
    rw [hz, h1c, h2c]
  have hnd2 : (match mailboxStateFirst (insertEvent now2 (wkStep now1 wd db0 e1) e2)
        e2.userEmail with
      | some r => r.status == "disabled"
      | none => false) = false := by
    have hfirst : mailboxStateFirst (insertEvent now2 (wkStep now1 wd db0 e1) e2) e2.userEmail
        = some ⟨e1.userEmail, emailDomainPart e1.userEmail, "warning", 1, some now1,
            none, now1⟩ := by
      show ((wkStep now1 wd db0 e1).mailbox_state.filter
        (fun r => r.email == e2.userEmail)).head? = _
      rw [hem2, hst1]
      rfl
    rw [hfirst]
    rfl
  have hstep2 := processEvent_disable_eq hv2 hnew2 hcount2 hnd2
  have hdb2 : wkStep now2 wd (wkStep now1 wd db0 e1) e2 =
      { (setMailboxActive now2 (insertEvent now2 (wkStep now1 wd db0 e1) e2)
          e2.userEmail false).1 with
        mailbox_state :=
          upsertMailboxStateDisabled
            ((setMailboxActive now2 (insertEvent now2 (wkStep now1 wd db0 e1) e2)
              e2.userEmail false).1).mailbox_state
            e2.userEmail (emailDomainPart e2.userEmail) now2,
        rate_limit_events :=
          stampDisabledAt
            ((setMailboxActive now2 (insertEvent now2 (wkStep now1 wd db0 e1) e2)
              e2.userEmail false).1).rate_limit_events
            (buildEventHash e2) now2,
        audit_logs :=
          ((setMailboxActive now2 (insertEvent now2 (wkStep now1 wd db0 e1) e2)
            e2.userEmail false).1).audit_logs ++
            [⟨"system-worker", "mailbox_disabled", "mailbox", e2.userEmail,
              (if (setMailboxActive now2 (insertEvent now2 (wkStep now1 wd db0 e1) e2)
                  e2.userEmail false).2 = none then "success" else "error"),
              "ratelimit_second_hit", some e2.bucketName,
              (setMailboxActive now2 (insertEvent now2 (wkStep now1 wd db0 e1) e2)
                e2.userEmail false).2⟩] } := by
    show (processEvent now2 wd (wkStep now1 wd db0 e1) e2).1 = _
    rw [hstep2]
  have hAms : ((setMailboxActive now2 (insertEvent now2 (wkStep now1 wd db0 e1) e2)
      e2.userEmail false).1).mailbox_state = (wkStep now1 wd db0 e1).mailbox_state :=
    setMailboxActive_mailbox_state now2 (insertEvent now2 (wkStep now1 wd db0 e1) e2)
      e2.userEmail false
  have hst2 : (wkStep now2 wd (wkStep now1 wd db0 e1) e2).mailbox_state.filter
      (fun r => r.email == e1.userEmail)
      = [⟨e1.userEmail, emailDomainPart e1.userEmail, "disabled", 1, some now1,
          some now2, now2⟩] := by
    rw [hdb2]
    show (upsertMailboxStateDisabled
      ((setMailboxActive now2 (insertEvent now2 (wkStep now1 wd db0 e1) e2)
        e2.userEmail false).1).mailbox_state
      e2.userEmail (emailDomainPart e2.userEmail) now2).filter
        (fun r => r.email == e1.userEmail) = _
    rw [hAms, hem2]
    exact filter_upsertDisabled_of_single (emailDomainPart e1.userEmail) now2 hst1
  have hcalls2 : (wkStep now2 wd (wkStep now1 wd db0 e1) e2).set_active_calls
      = [(jsNorm e1.userEmail, false)] := by
    rw [hdb2]
    show ((setMailboxActive now2 (insertEvent now2 (wkStep now1 wd db0 e1) e2)
      e2.userEmail false).1).set_active_calls = _
    rw [setMailboxActive_calls, hem2]
    show (wkStep now1 wd db0 e1).set_active_calls ++ [(jsNorm e1.userEmail, false)] = _
    rw [hcalls1]
    rfl
  have hhash2 : eventHashes (wkStep now2 wd (wkStep now1 wd db0 e1) e2)
      = (eventHashes db0 ++ [buildEventHash e1]) ++ [buildEventHash e2] := by
    have h := @processEvent_inserts (wkStep now1 wd db0 e1) now2 wd e2 hv2 hnew2
    rw [hhash1] at h
    exact h
  have hAev : ((setMailboxActive now2 (insertEvent now2 (wkStep now1 wd db0 e1) e2)
      e2.userEmail false).1).rate_limit_events
      = (wkStep now1 wd db0 e1).rate_limit_events ++ [mkEventRow now2 e2] :=
    setMailboxActive_rate_limit_events now2 (insertEvent now2 (wkStep now1 wd db0 e1) e2)
      e2.userEmail false
  have hev2 : (wkStep now2 wd (wkStep now1 wd db0 e1) e2).rate_limit_events
      = stampDisabledAt ((wkStep now1 wd db0 e1).rate_limit_events ++ [mkEventRow now2 e2])
          (buildEventHash e2) now2 := by
    rw [hdb2]
    show stampDisabledAt
      ((setMailboxActive now2 (insertEvent now2 (wkStep now1 wd db0 e1) e2)
        e2.userEmail false).1).rate_limit_events (buildEventHash e2) now2 = _
    rw [hAev]
  -- step 3: already disabled, record only
  have hnew3 : buildEventHash e3 ∉ eventHashes (wkStep now2 wd (wkStep now1 wd db0 e1) e2) := by
    rw [hhash2]
    intro hmem
    rcases List.mem_append.mp hmem with h | h
    · rcases List.mem_append.mp h with h2 | h2
      · exact hh3 h2
      · exact hh31 (List.mem_singleton.mp h2)
    · exact hh32 (List.mem_singleton.mp h)
  have hcount3 : 2 ≤ eventWindowCount
      (insertEvent now3 (wkStep now2 wd (wkStep now1 wd db0 e1) e2) e3).rate_limit_events
      e3.userEmail now3 wd := by
    show 2 ≤ eventWindowCount
      ((wkStep now2 wd (wkStep now1 wd db0 e1) e2).rate_limit_events ++ [mkEventRow now3 e3])
      e3.userEmail now3 wd
    rw [hev2, eventWindowCount_append, eventWindowCount_stampDisabledAt,
      eventWindowCount_append, hev1, eventWindowCount_stampWarnedAt,
      eventWindowCount_append]
    have hz : eventWindowCount db0.rate_limit_events e3.userEmail now3 wd = 0 :=
      eventWindowCount_zero_of_no_email now3 wd (by rw [hem3]; exact hnoev)
    have h1c : eventWindowCount [mkEventRow now1 e1] e3.userEmail now3 wd = 1 := by
      rw [hem3, eventWindowCount_single_mk, if_pos hw31]
    have h2c : eventWindowCount [mkEventRow now2 e2] e3.userEmail now3 wd = 1 := by
      rw [show e3.userEmail = e2.userEmail from hem3.trans hem2.symm,
        eventWindowCount_single_mk, if_pos hw32]
    have h3c : eventWindowCount [mkEventRow now3 e3] e3.userEmail now3 wd = 1 := by
      rw [eventWindowCount_single_mk, if_pos hw33]
    rw [hz, h1c, h2c, h3c]
    omega
  have hd3 : (match mailboxStateFirst
        (insertEvent now3 (wkStep now2 wd (wkStep now1 wd db0 e1) e2) e3) e3.userEmail with
      | some r => r.status == "disabled"
      | none => false) = true := by
    have hfirst : mailboxStateFirst
        (insertEvent now3 (wkStep now2 wd (wkStep now1 wd db0 e1) e2) e3) e3.userEmail
        = some ⟨e1.userEmail, emailDomainPart e1.userEmail, "disabled", 1, some now1,
            some now2, now2⟩ := by
      show ((wkStep now2 wd (wkStep now1 wd db0 e1) e2).mailbox_state.filter
        (fun r => r.email == e3.userEmail)).head? = _
      rw [hem3, hst2]
      rfl
    rw [hfirst]
    rfl
  have hstep3 := processEvent_alreadyDisabled_eq hv3 hnew3 hcount3 hd3
  have hdb3 : wkStep now3 wd (wkStep now2 wd (wkStep now1 wd db0 e1) e2) e3
      = insertEvent now3 (wkStep now2 wd (wkStep now1 wd db0 e1) e2) e3 := by
    show (processEvent now3 wd (wkStep now2 wd (wkStep now1 wd db0 e1) e2) e3).1 = _
    rw [hstep3]
  refine ⟨hst1, hcalls1, hst2, hcalls2, ?_, ?_, ?_, ?_, ?_⟩
  · rw [hstep3]
  · rw [hdb3]
    rfl
  · rw [hdb3]
    rfl
  · rw [hdb3]
    rfl
  · rw [hdb3]
    show ((wkStep now2 wd (wkStep now1 wd db0 e1) e2).rate_limit_events
      ++ [mkEventRow now3 e3]).length = _
    rw [List.length_append]
    rfl

def c3e1 : ParsedEvent :=
  ⟨"ops@example.com", "rl", "ratelimited", some "Q1", none, 0, "rspamd_log", ""⟩

def c3e2 : ParsedEvent :=
  ⟨"ops@example.com", "rl", "ratelimited", some "Q2", none, 60000, "rspamd_log", ""⟩

def c3e3 : ParsedEvent :=
  ⟨"ops@example.com", "rl", "ratelimited", some "Q3", none, 120000, "rspamd_log", ""⟩

/-- C3 witness: the state-machine theorem applied to a fresh database and
three concrete log events one minute apart. -/
theorem worker_escalation_state_machine_witness :
    (wkStep 0 7 emptyDb c3e1).mailbox_state.filter (fun r => r.email == c3e1.userEmail)
        = [⟨c3e1.userEmail, emailDomainPart c3e1.userEmail, "warning", 1, some 0, none, 0⟩] ∧
    (wkStep 0 7 emptyDb c3e1).set_active_calls = [] ∧
    (wkStep 60000 7 (wkStep 0 7 emptyDb c3e1) c3e2).mailbox_state.filter
        (fun r => r.email == c3e1.userEmail)
        = [⟨c3e1.userEmail, emailDomainPart c3e1.userEmail, "disabled", 1, some 0,
            some 60000, 60000⟩] ∧
    (wkStep 60000 7 (wkStep 0 7 emptyDb c3e1) c3e2).set_active_calls
        = [(jsNorm c3e1.userEmail, false)] ∧
    (processEvent 120000 7 (wkStep 60000 7 (wkStep 0 7 emptyDb c3e1) c3e2) c3e3).2 = true ∧
    (wkStep 120000 7 (wkStep 60000 7 (wkStep 0 7 emptyDb c3e1) c3e2) c3e3).mailbox_state
        = (wkStep 60000 7 (wkStep 0 7 emptyDb c3e1) c3e2).mailbox_state ∧
    (wkStep 120000 7 (wkStep 60000 7 (wkStep 0 7 emptyDb c3e1) c3e2) c3e3).set_active_calls
        = (wkStep 60000 7 (wkStep 0 7 emptyDb c3e1) c3e2).set_active_calls ∧
    (wkStep 120000 7 (wkStep 60000 7 (wkStep 0 7 emptyDb c3e1) c3e2) c3e3).audit_logs
        = (wkStep 60000 7 (wkStep 0 7 emptyDb c3e1) c3e2).audit_logs ∧
    (wkStep 120000 7 (wkStep 60000 7 (wkStep 0 7 emptyDb c3e1) c3e2)
        c3e3).rate_limit_events.length
        = (wkStep 60000 7 (wkStep 0 7 emptyDb c3e1) c3e2).rate_limit_events.length + 1 :=
  worker_escalation_state_machine emptyDb 7 0 60000 120000 c3e1 c3e2 c3e3
    rfl rfl (by decide) rfl rfl rfl
    (List.not_mem_nil _) (List.not_mem_nil _) (by decide)
    (List.not_mem_nil _) (by decide) (by decide)
    (by decide) (by decide) (by decide) (by decide) (by decide) (by decide)

/-! ### Filesystem and configuration for the Control API

The filesystem is a finite map from paths to file contents (directories
and permission bits are outside the model).  External effects are passed
in: `gen` is the RSA keypair produced by `crypto.generateKeyPairSync`
(private PEM, public PEM), `derive` is the derivation of the public PEM
from a private PEM (`crypto.createPublicKey`), `bhash` is `bcrypt.hash`
with cost 12, and the outcome of the rspamd reload shell command is a
configuration flag. -/

abbrev FileSys := List (String × String)

def fsRead (fs : FileSys) (p : String) : Option String :=
  match fs.find? (fun e => e.1 == p) with
  | some e => some e.2
  | none => none

def fsWrite (fs : FileSys) (p c : String) : FileSys :=
  if fs.any (fun e => e.1 == p) then
    fs.map (fun e => if e.1 == p then (p, c) else e)
  else
    fs ++ [(p, c)]

/-- Configuration of `MailServerApi` (constructor env defaults) plus the
`ready` flag set by `discover()` and the modelled outcome of the reload
command. -/
structure ApiCfg where
  dkimSelector : String
  dkimKeysDir : String
  dkimSelectorMap : String
  skipRspamdReload : Bool
  reloadFails : Bool
  ready : Bool
deriving DecidableEq, Repr

/-- `reloadRspamd`: skipped, successful, or an error annotated with the
operator remediation hint. -/
def reloadRspamd (cfg : ApiCfg) : Option String :=
  if cfg.skipRspamdReload then none
  else if cfg.reloadFails then
    some "Failed reloading rspamd. Ensure panel user can reload rspamd."
  else none

/-- `ensureDkimSelectorMap`: create an empty selector-map file if absent. -/
def ensureDkimSelectorMap (cfg : ApiCfg) (fs : FileSys) : FileSys :=
  match fsRead fs cfg.dkimSelectorMap with
  | none => fsWrite fs cfg.dkimSelectorMap ""
  | some _ => fs

/-- Splitting on the regex CR?LF, as `raw.split(/\r?\n/)`. -/
def splitLinesAux : List Char → List Char → List String
  | [], acc => [String.mk acc.reverse]
  | '\r' :: '\n' :: rest, acc => String.mk acc.reverse :: splitLinesAux rest []
  | '\n' :: rest, acc => String.mk acc.reverse :: splitLinesAux rest []
  | c :: rest, acc => splitLinesAux rest (c :: acc)

def splitLines (s : String) : List String := splitLinesAux s.data []

/-- `new RegExp(escapeRegex(domain) + backslash-s-plus).test(line)` with the
leading anchor: the line starts with the (literal) domain followed by at
least one whitespace character. -/
def domainLineMatch (domain line : String) : Bool :=
  domain.data.isPrefixOf line.data &&
    (match line.data.drop domain.data.length with
     | c :: _ => jsWhitespace c
     | [] => false)

/-- `line.trim().startsWith("#")`. -/
def isCommentLine (l : String) : Bool :=
  match (jsTrim l).data with
  | c :: _ => c == '#'
  | [] => false

/-- `kept.join(sep)` (Array.prototype.join). -/
def joinSep (sep : String) : List String → String
  | [] => ""
  | [x] => x
  | x :: xs => x ++ sep ++ joinSep sep xs

/-- The list of lines written by `updateDkimSelectorMap`: the current
non-blank, non-comment lines not matching the domain, plus a fresh
`domain selector` line when `active`. -/
def updateDkimSelectorMapLines (cfg : ApiCfg) (fs : FileSys) (domain selector : String)
    (active : Bool) : List String :=
  let fs1 := ensureDkimSelectorMap cfg fs
  let raw := (fsRead fs1 cfg.dkimSelectorMap).getD ""
  let lines := (splitLines raw).filter (fun l => 0 < (jsTrim l).length)
  let kept := (lines.filter (fun l => !isCommentLine l)).filter
    (fun l => !domainLineMatch domain l)
  if active then kept ++ [domain ++ " " ++ selector] else kept

/-- `updateDkimSelectorMap`: rewrite the selector-map file. -/
def updateDkimSelectorMap (cfg : ApiCfg) (fs : FileSys) (domain selector : String)
    (active : Bool) : FileSys :=
  let fs1 := ensureDkimSelectorMap cfg fs
  let kept := updateDkimSelectorMapLines cfg fs domain selector active
  let output := joinSep "\n" kept ++ (if kept.length ≠ 0 then "\n" else "")
  fsWrite fs1 cfg.dkimSelectorMap output

/-- Remove every occurrence of `pat` from a character list, scanning left
to right (the semantics of `String.replace(literal, "")` with the global
flag); explicit fuel keeps the recursion structural. -/
def removeAllSubAux (pat : List Char) : Nat → List Char → List Char
  | 0, l => l
  | _ + 1, [] => []
  | fuel + 1, c :: rest =>
    if pat ≠ [] ∧ pat.isPrefixOf (c :: rest) then
      removeAllSubAux pat fuel ((c :: rest).drop pat.length)
    else c :: removeAllSubAux pat fuel rest

def removeAllSub (pat l : List Char) : List Char :=
  removeAllSubAux pat l.length l

/-- The public-key body extraction of `ensureDkimKey`: strip the PEM
header and footer, delete all whitespace, trim. -/
def stripPem (pem : String) : String :=
  let l1 := removeAllSub ("-----BEGIN PUBLIC KEY-----".data) pem.data
  let l2 := removeAllSub ("-----END PUBLIC KEY-----".data) l1
  jsTrim (String.mk (l2.filter (fun c => !jsWhitespace c)))

/-- `ensureDkimKey(domain, selector)`: generate and persist a 2048-bit
keypair when the canonical private-key file is absent, otherwise load the
existing key and derive its public half; in both cases return the key
path and the DKIM TXT value, failing when extraction yields an empty
body. -/
def ensureDkimKey (cfg : ApiCfg) (fs : FileSys) (gen : String × String)
    (derive : String → String) (domain selector : String) :
    FileSys × Except String (String × String) :=
  let privateKeyPath := cfg.dkimKeysDir ++ "/" ++ domain ++ "." ++ selector ++ ".key"
  match fsRead fs privateKeyPath with
  | none =>
    let fs1 := fsWrite fs privateKeyPath gen.1
    let pubBody := stripPem gen.2
    if pubBody = "" then
      (fs1, Except.error "DKIM public key extraction returned empty output")
    else
      (fs1, Except.ok (privateKeyPath, "v=DKIM1; k=rsa; p=" ++ pubBody))
  | some keyPem =>
    let pubBody := stripPem (derive keyPem)
    if pubBody = "" then
      (fs, Except.error "DKIM public key extraction returned empty output")
    else
      (fs, Except.ok (privateKeyPath, "v=DKIM1; k=rsa; p=" ++ pubBody))

/-! ### Control API operations -/

def notReadyMsg : String := "Mail server API not initialized. Call discover() first."

structure DomainInput where
  domain : String
  description : String
deriving DecidableEq, Repr

/-- The `mail_domains` upsert of `createDomain` (insert, or on conflict
update metadata and clear the soft delete). -/
def upsertDomainRow (rows : List DomainRow) (domain desc selector pub path : String)
    (now : Nat) : List DomainRow :=
  if rows.any (fun d => d.domain_name == domain) then
    rows.map (fun d =>
      if d.domain_name == domain then
        { d with description := desc, active := true, dkim_selector := selector,
                 dkim_public_key := pub, dkim_private_key_path := path,
                 deleted_at := none, updated_at := now }
      else d)
  else
    rows ++ [{ domain_name := domain, description := desc, active := true,
               dkim_selector := selector, dkim_public_key := pub,
               dkim_private_key_path := path, created_at := now, updated_at := now,
               deleted_at := none }]

/-- `MailServerApi.createDomain`. -/
def createDomain (cfg : ApiCfg) (db : Db) (fs : FileSys) (gen : String × String)
    (derive : String → String) (now : Nat) (input : DomainInput) :
    Db × FileSys × Option String :=
  if ¬ cfg.ready then (db, fs, some notReadyMsg)
  else
    let domain := jsNorm input.domain
    if ¬ domainMatch domain then (db, fs, some "Invalid domain")
    else
      let selector := cfg.dkimSelector
      let res := ensureDkimKey cfg fs gen derive domain selector
      match res.2 with
      | Except.error msg => (db, res.1, some msg)
      | Except.ok mat =>
        let desc := jsFalsyOr input.description "Managed by internal panel"
        let db1 :=
          { db with mail_domains := upsertDomainRow db.mail_domains domain desc selector mat.2 mat.1 now }
        let fs2 := updateDkimSelectorMap cfg res.1 domain selector true
        match reloadRspamd cfg with
        | some err => (db1, fs2, some err)
        | none => (db1, fs2, none)

/-- `MailServerApi.deleteDomain`. -/
def deleteDomain (cfg : ApiCfg) (db : Db) (fs : FileSys) (now : Nat)
    (domainInput : String) : Db × FileSys × Option String :=
  if ¬ cfg.ready then (db, fs, some notReadyMsg)
  else
    let domain := jsNorm domainInput
    if ¬ domainMatch domain then (db, fs, some "Invalid domain")
    else
      let users2 := db.mail_users.filter (fun u => !(u.domain_name == domain))
      let rowCount := (db.mail_domains.filter (fun d => d.domain_name == domain)).length
      let domains2 := db.mail_domains.map (fun d =>
        if d.domain_name == domain then
          { d with active := false, deleted_at := some now, updated_at := now }
        else d)
      let db1 := { db with mail_users := users2, mail_domains := domains2 }
      if rowCount = 0 then (db1, fs, some ("Domain not found: " ++ domain))
      else
        let fs2 := updateDkimSelectorMap cfg fs domain cfg.dkimSelector false
        match reloadRspamd cfg with
        | some err => (db1, fs2, some err)
        | none => (db1, fs2, none)

structure MailboxView where
  username : String
  local_part : String
  domain : String
  name : String
  quota : Int
  active : String
  created : Nat
deriving DecidableEq, Repr

def insertByEmail (u : UserRow) : List UserRow → List UserRow
  | [] => [u]
  | v :: rest => if u.email ≤ v.email then u :: v :: rest else v :: insertByEmail u rest

/-- `ORDER BY email ASC`. -/
def sortByEmail : List UserRow → List UserRow
  | [] => []
  | u :: rest => insertByEmail u (sortByEmail rest)

/-- `MailServerApi.listMailboxes` with its optional domain filter. -/
def listMailboxes (cfg : ApiCfg) (db : Db) (domainInput : Option String) :
    Except String (List MailboxView) :=
  if ¬ cfg.ready then Except.error notReadyMsg
  else
    let domain : Option String :=
      match domainInput with
      | some s => if s = "" then none else some (jsNorm s)
      | none => none
    let rows :=
      match domain with
      | some d =>
        if d = "" ∨ d = "all" then db.mail_users
        else db.mail_users.filter (fun u => u.domain_name == d)
      | none => db.mail_users
    Except.ok ((sortByEmail rows).map (fun u =>
      { username := u.email, local_part := u.local_part, domain := u.domain_name,
        name := u.display_name, quota := u.quota_mb * 1024 * 1024,
        active := if u.active then "1" else "0", created := u.created_at }))

structure MailboxInput where
  localPart : String
  domain : String
  name : String
  password : String
  quotaMb : Int
deriving DecidableEq, Repr

/-- The `mail_users` upsert of `createMailbox` (insert, or on conflict
update and reactivate). -/
def upsertUserRow (rows : List UserRow) (email domain localPart name hash : String)
    (quota : Int) (now : Nat) : List UserRow :=
  if rows.any (fun u => u.email == email) then
    rows.map (fun u =>
      if u.email == email then
        { u with domain_name := domain, local_part := localPart, display_name := name,
                 password_hash := hash, quota_mb := quota, active := true,
                 disabled_at := none, updated_at := now }
      else u)
  else
    rows ++ [{ email := email, domain_name := domain, local_part := localPart,
               display_name := name, password_hash := hash, quota_mb := quota,
               active := true, created_at := now, updated_at := now, disabled_at := none }]

/-- `MailServerApi.createMailbox`: validation, then the active-domain
check, then hash and upsert. -/
def createMailbox (cfg : ApiCfg) (db : Db) (bhash : String → String) (now : Nat)
    (input : MailboxInput) : Db × Option String :=
  if ¬ cfg.ready then (db, some notReadyMsg)
  else
    let localPart := jsNorm input.localPart
    let domain := jsNorm input.domain
    let name := jsTrim input.name
    let password := input.password
    let quotaMb := input.quotaMb
    let email := localPart ++ "@" ++ domain
    if localPart = "" ∨ ¬ domainMatch domain ∨ ¬ emailFullMatchStr email ∨
        password.length < 8 ∨ quotaMb ≤ 0 then
      (db, some "Invalid mailbox payload")
    else if (db.mail_domains.filter (fun d =>
        d.domain_name == domain && d.active && d.deleted_at == none)).length = 0 then
      (db, some ("Domain not found or inactive: " ++ domain))
    else
      let passwordHash := bhash password
      ({ db with mail_users :=
        upsertUserRow db.mail_users email domain localPart name passwordHash quotaMb now },
        none)

structure DkimView where
  domain : String
  dkim_selector : String
  dkim_txt : String
deriving DecidableEq, Repr

/-- `MailServerApi.getDkim`. -/
def getDkim (cfg : ApiCfg) (db : Db) (domainInput : String) : Except String DkimView :=
  if ¬ cfg.ready then Except.error notReadyMsg
  else
    let domain := jsNorm domainInput
    if ¬ domainMatch domain then Except.error "Invalid domain"
    else
      match (db.mail_domains.filter (fun d =>
          d.domain_name == domain && d.deleted_at == none)).head? with
      | none => Except.error ("Domain not found: " ++ domain)
      | some row =>
        Except.ok { domain := domain,
                    dkim_selector := jsFalsyOr row.dkim_selector cfg.dkimSelector,
                    dkim_txt := jsFalsyOr row.dkim_public_key "" }

structure DomainView where
  domain_name : String
  domain : String
  active : String
  description : String
  mboxes_in_domain : Nat
  quota_used_in_domain : Int
deriving DecidableEq, Repr

def insertByDomainName (d : DomainRow) : List DomainRow → List DomainRow
  | [] => [d]
  | v :: rest =>
    if d.domain_name ≤ v.domain_name then d :: v :: rest else v :: insertByDomainName d rest

/-- `ORDER BY domain_name ASC`. -/
def sortByDomainName : List DomainRow → List DomainRow
  | [] => []
  | d :: rest => insertByDomainName d (sortByDomainName rest)

/-- `MailServerApi.listDomains`: non-soft-deleted domains enriched with
correlated counts of active mailboxes and their aggregate quota. -/
def listDomains (cfg : ApiCfg) (db : Db) : Except String (List DomainView) :=
  if ¬ cfg.ready then Except.error notReadyMsg
  else
    Except.ok ((sortByDomainName (db.mail_domains.filter
        (fun d => d.deleted_at == none))).map (fun d =>
      { domain_name := d.domain_name, domain := d.domain_name,
        active := if d.active then "1" else "0", description := d.description,
        mboxes_in_domain := (db.mail_users.filter
          (fun u => u.domain_name == d.domain_name && u.active)).length,
        quota_used_in_domain := ((db.mail_users.filter
          (fun u => u.domain_name == d.domain_name && u.active)).map
            (fun u => u.quota_mb)).sum * 1024 * 1024 }))

/-! ### C5: createMailbox validates first and requires a live domain -/

/-- C5: for any input, `createMailbox` validates the local part, domain,
composed email, password length (at least 8) and quota (positive) before
any mutation — a validation failure returns the database unchanged; and
when validation passes but the owning domain row is absent, inactive or
soft-deleted, it fails with the not-found error, again leaving the
database (in particular `mail_users`) unchanged. -/
theorem createMailbox_validation_then_domain {cfg : ApiCfg} {db : Db}
    {bhash : String → String} {now : Nat} {input : MailboxInput}
    (hready : cfg.ready = true) :
    ((jsNorm input.localPart = "" ∨ ¬ domainMatch (jsNorm input.domain) ∨
      ¬ emailFullMatchStr (jsNorm input.localPart ++ "@" ++ jsNorm input.domain) ∨
      input.password.length < 8 ∨ input.quotaMb ≤ 0) →
      createMailbox cfg db bhash now input = (db, some "Invalid mailbox payload")) ∧
    (¬(jsNorm input.localPart = "" ∨ ¬ domainMatch (jsNorm input.domain) ∨
      ¬ emailFullMatchStr (jsNorm input.localPart ++ "@" ++ jsNorm input.domain) ∨
      input.password.length < 8 ∨ input.quotaMb ≤ 0) →
      (db.mail_domains.filter (fun d =>
        d.domain_name == jsNorm input.domain && d.active && d.deleted_at == none)).length = 0 →
      createMailbox cfg db bhash now input
        = (db, some ("Domain not found or inactive: " ++ jsNorm input.domain))) := by
  constructor
  · intro hbad
    unfold createMailbox
    rw [if_neg (by simp [hready]), if_pos hbad]
  · intro hok hdom
    unfold createMailbox
    rw [if_neg (by simp [hready]), if_neg hok, if_pos hdom]

def apiCfg : ApiCfg :=
  ⟨"mail", "/etc/rspamd/dkim", "/etc/rspamd/local.d/dkim_selectors.map", true, false, true⟩

def c5Db : Db :=
  { emptyDb with mail_domains :=
      [⟨"example.com", "", false, "mail", "", "", 0, 0, none⟩] }

def c5Input : MailboxInput := ⟨"ops", "example.com", "Ops", "password123", 3072⟩

/-- C5 witness: the theorem applied at a database whose only domain row
is inactive. -/
theorem createMailbox_validation_then_domain_witness :
    createMailbox apiCfg c5Db (fun p => p) 5 c5Input
      = (c5Db, some ("Domain not found or inactive: " ++ jsNorm c5Input.domain)) :=
  (createMailbox_validation_then_domain rfl).2 (by decide) (by decide)

/-! ### C7: deleteDomain removes the domain's mailboxes -/

/-- C7: `deleteDomain(d)` fails with the not-found error when no
`mail_domains` row matches the normalised name; when a row matches, the
resulting database has every `mail_users` row of that domain deleted —
so `listMailboxes` filtered to `d` returns the empty list — and the
domain row is marked inactive and soft-deleted. -/
theorem deleteDomain_removes_mailboxes {cfg : ApiCfg} {db : Db} {fs : FileSys}
    {now : Nat} {dIn : String} (hready : cfg.ready = true) :
    (domainMatch (jsNorm dIn) = true →
      (db.mail_domains.filter (fun d => d.domain_name == jsNorm dIn)).length = 0 →
      (deleteDomain cfg db fs now dIn).2.2 = some ("Domain not found: " ++ jsNorm dIn)) ∧
    (domainMatch (jsNorm dIn) = true →
      (db.mail_domains.filter (fun d => d.domain_name == jsNorm dIn)).length ≠ 0 →
      listMailboxes cfg ((deleteDomain cfg db fs now dIn).1) (some dIn)
        = Except.ok [] ∧
      ∀ d ∈ ((deleteDomain cfg db fs now dIn).1).mail_domains,
        d.domain_name = jsNorm dIn → d.active = false ∧ d.deleted_at = some now) := by
  constructor
  · intro hmatch hzero
    unfold deleteDomain
    rw [if_neg (by simp [hready]), if_neg (by simp [hmatch])]
    simp only [hzero, if_true]
  · intro hmatch hnz
    have hdel : (deleteDomain cfg db fs now dIn).1 =
        { db with
          mail_users := db.mail_users.filter (fun u => !(u.domain_name == jsNorm dIn)),
          mail_domains := db.mail_domains.map (fun d =>
            if d.domain_name == jsNorm dIn then
              { d with active := false, deleted_at := some now, updated_at := now }
            else d) } := by
      unfold deleteDomain
      rw [if_neg (by simp [hready]), if_neg (by simp [hmatch])]
      simp only []
      rw [if_neg hnz]
      cases reloadRspamd cfg <;> rfl
    have hne : jsNorm dIn ≠ "" := by
      intro h
      rw [h] at hmatch
      exact absurd hmatch (by decide)
    have hnall : jsNorm dIn ≠ "all" := by
      intro h
      rw [h] at hmatch
      exact absurd hmatch (by decide)
    have hdne : dIn ≠ "" := by
      intro h
      apply hne
      rw [h]
      decide
    have hrows : ((deleteDomain cfg db fs now dIn).1).mail_users.filter
        (fun u => u.domain_name == jsNorm dIn) = [] := by
      rw [hdel]
      show (db.mail_users.filter (fun u => !(u.domain_name == jsNorm dIn))).filter
        (fun u => u.domain_name == jsNorm dIn) = []
      rw [List.filter_eq_nil_iff]
      intro a ha hpa
      have := (List.mem_filter.mp ha).2
      rw [hpa] at this
      exact absurd this (by decide)
    constructor
    · unfold listMailboxes
      rw [if_neg (by simp [hready])]
      simp only [if_neg hdne]
      rw [if_neg (not_or.mpr ⟨hne, hnall⟩), hrows]
      rfl
    · intro d hd hname
      rw [hdel] at hd
      have hd2 : d ∈ db.mail_domains.map (fun d =>
          if d.domain_name == jsNorm dIn then
            { d with active := false, deleted_at := some now, updated_at := now }
          else d) := hd
      obtain ⟨d0, hd0, hfd⟩ := List.mem_map.mp hd2
      by_cases h0 : d0.domain_name == jsNorm dIn
      · rw [if_pos h0] at hfd
        rw [← hfd]
        exact ⟨rfl, rfl⟩
      · rw [if_neg h0] at hfd
        rw [← hfd] at hname
        exact absurd (beq_iff_eq.mpr hname) h0

def c7Db : Db :=
  { emptyDb with
    mail_domains := [⟨"example.com", "", true, "mail", "", "", 0, 0, none⟩],
    mail_users := [⟨"ops@example.com", "example.com", "ops", "Ops", "h", 3072, true, 0, 0,
      none⟩] }

/-- C7 witness: deleting a present domain empties its mailbox listing and
soft-deletes the row; deleting from an empty database reports not-found. -/
theorem deleteDomain_removes_mailboxes_witness :
    (deleteDomain apiCfg emptyDb [] 3 "example.com").2.2
      = some ("Domain not found: " ++ jsNorm "example.com") ∧
    (listMailboxes apiCfg ((deleteDomain apiCfg c7Db [] 3 "example.com").1)
        (some "example.com") = Except.ok [] ∧
      ∀ d ∈ ((deleteDomain apiCfg c7Db [] 3 "example.com").1).mail_domains,
        d.domain_name = jsNorm "example.com" → d.active = false ∧ d.deleted_at = some 3) :=
  ⟨(deleteDomain_removes_mailboxes rfl).1 (by decide) (by decide),
   (deleteDomain_removes_mailboxes rfl).2 (by decide) (by decide)⟩

/-! ### C10: listDomains counts only active mailboxes -/

/-- C10: the per-domain mailbox count and aggregate quota reported by
`listDomains` range over only the `mail_users` rows with `active = true`:
adding a deactivated mailbox to the database changes nothing in the
listing, and every returned view's count and quota equal the filter over
active rows of its domain. -/
theorem listDomains_counts_only_active {cfg : ApiCfg} {db : Db}
    (hready : cfg.ready = true) :
    (∀ u : UserRow, u.active = false →
      listDomains cfg { db with mail_users := u :: db.mail_users } = listDomains cfg db) ∧
    (∀ l, listDomains cfg db = Except.ok l → ∀ v ∈ l,
      v.mboxes_in_domain = (db.mail_users.filter
        (fun x => x.domain_name == v.domain_name && x.active)).length ∧
      v.quota_used_in_domain = ((db.mail_users.filter
        (fun x => x.domain_name == v.domain_name && x.active)).map
          (fun x => x.quota_mb)).sum * 1024 * 1024) := by
  constructor
  · intro u hu
    unfold listDomains
    rw [if_neg (by simp [hready]), if_neg (by simp [hready])]
    have hpred : ∀ dn : String, (u.domain_name == dn && u.active) = false := by
      intro dn
      rw [hu, Bool.and_false]
    apply congrArg
    apply List.map_congr_left
    intro d _
    simp only [DomainView.mk.injEq]
    refine ⟨trivial, trivial, trivial, trivial, ?_, ?_⟩
    · simp only [List.filter_cons, hpred, Bool.false_eq_true, if_false]
    · simp only [List.filter_cons, hpred, Bool.false_eq_true, if_false]
  · intro l hl v hv
    unfold listDomains at hl
    rw [if_neg (by simp [hready])] at hl
    have hl2 := (Except.ok.injEq _ _).mp hl
    rw [← hl2] at hv
    obtain ⟨d, hd, hfd⟩ := List.mem_map.mp hv
    rw [← hfd]
    exact ⟨rfl, rfl⟩

def c10Db : Db :=
  { emptyDb with
    mail_domains := [⟨"example.com", "", true, "mail", "", "", 0, 0, none⟩],
    mail_users := [⟨"a@example.com", "example.com", "a", "", "h", 100, true, 0, 0, none⟩] }

def c10InactiveUser : UserRow :=
  ⟨"b@example.com", "example.com", "b", "", "h", 500, false, 0, 0, some 1⟩

/-- C10 witness: the theorem applied at a one-domain database with one
active mailbox, adding a deactivated mailbox. -/
theorem listDomains_counts_only_active_witness :
    listDomains apiCfg { c10Db with mail_users := c10InactiveUser :: c10Db.mail_users }
      = listDomains apiCfg c10Db :=
  (listDomains_counts_only_active rfl).1 c10InactiveUser (by decide)

/-! ### C6: createDomain, DKIM TXT shape and key-file stability -/

/-- The canonical private-key path used by `ensureDkimKey` for a domain
under the configured selector. -/
def keyPathOf (cfg : ApiCfg) (domain : String) : String :=
  cfg.dkimKeysDir ++ "/" ++ domain ++ "." ++ cfg.dkimSelector ++ ".key"

theorem find?_map_write_self {p c : String} :
    ∀ fs : FileSys, fs.any (fun e => e.1 == p) = true →
    (fs.map (fun e => if e.1 == p then (p, c) else e)).find? (fun e => e.1 == p)
      = some (p, c) := by
  intro fs
  induction fs with
  | nil => intro h; simp at h
  | cons e t ih =>
    intro hany
    by_cases he : e.1 == p
    · simp only [List.map_cons, if_pos he, List.find?_cons, beq_self_eq_true]
    · simp only [List.map_cons, if_neg he, List.find?_cons]
      rw [show (e.1 == p) = false from Bool.eq_false_iff.mpr he]
      apply ih
      simp only [List.any_cons] at hany
      rcases Bool.or_eq_true_iff.mp hany with h | h
      · exact absurd h he
      · exact h

theorem find?_map_write_other {p q c : String} (hpq : p ≠ q) :
    ∀ fs : FileSys,
    (fs.map (fun e => if e.1 == q then (q, c) else e)).find? (fun e => e.1 == p)
      = fs.find? (fun e => e.1 == p) := by
  intro fs
  induction fs with
  | nil => rfl
  | cons e t ih =>
    by_cases heq : e.1 == q
    · have hep : (e.1 == p) = false := by
        rw [beq_eq_false_iff_ne]
        intro h
        exact hpq (h.symm.trans (beq_iff_eq.mp heq))
      simp only [List.map_cons, if_pos heq, List.find?_cons, hep]
      rw [show (q == p) = false from beq_eq_false_iff_ne.mpr (fun h => hpq h.symm)]
      exact ih
    · simp only [List.map_cons, if_neg heq, List.find?_cons]
      cases hep : (e.1 == p)
      · exact ih
      · rfl

theorem fsRead_fsWrite_self (fs : FileSys) (p c : String) :
    fsRead (fsWrite fs p c) p = some c := by
  unfold fsWrite fsRead
  by_cases hany : fs.any (fun e => e.1 == p) = true
  · rw [if_pos hany, find?_map_write_self fs hany]
  · rw [if_neg hany, List.find?_append]
    have hnone : fs.find? (fun e => e.1 == p) = none := by
      rw [List.find?_eq_none]
      intro x hx hpx
      exact hany (List.any_eq_true.mpr ⟨x, hx, hpx⟩)
    rw [hnone]
    simp [List.find?_cons]

theorem fsRead_fsWrite_ne {p q : String} (fs : FileSys) (c : String) (hpq : p ≠ q) :
    fsRead (fsWrite fs q c) p = fsRead fs p := by
  unfold fsWrite fsRead
  by_cases hany : fs.any (fun e => e.1 == q) = true
  · rw [if_pos hany, find?_map_write_other hpq fs]
  · rw [if_neg hany, List.find?_append]
    have hone : List.find? (fun e => e.1 == p) [(q, c)] = none := by
      simp [List.find?_cons, beq_eq_false_iff_ne.mpr (fun h : q = p => hpq h.symm)]
    rw [hone]
    cases List.find? (fun e => e.1 == p) fs <;> rfl

theorem fsRead_updateDkimSelectorMap_other {cfg : ApiCfg} {p : String}
    (fs : FileSys) (d s : String) (a : Bool) (hne : p ≠ cfg.dkimSelectorMap) :
    fsRead (updateDkimSelectorMap cfg fs d s a) p = fsRead fs p := by
  unfold updateDkimSelectorMap ensureDkimSelectorMap
  cases h : fsRead fs cfg.dkimSelectorMap
  · simp only [h]
    rw [fsRead_fsWrite_ne _ _ hne, fsRead_fsWrite_ne _ _ hne]
  · simp only [h]
    rw [fsRead_fsWrite_ne _ _ hne]

theorem filter_upsertDomainMap_head {domain desc sel pub path : String} {now : Nat} :
    ∀ rows : List DomainRow, rows.any (fun d => d.domain_name == domain) = true →
    ∃ r, ((rows.map (fun d =>
        if d.domain_name == domain then
          { d with description := desc, active := true, dkim_selector := sel,
                   dkim_public_key := pub, dkim_private_key_path := path,
                   deleted_at := none, updated_at := now }
        else d)).filter
        (fun d => d.domain_name == domain && d.deleted_at == none)).head? = some r ∧
      r.dkim_selector = sel ∧ r.dkim_public_key = pub := by
  intro rows
  induction rows with
  | nil => intro h; simp at h
  | cons d t ih =>
    intro hany
    by_cases hd : d.domain_name == domain
    · refine ⟨⟨d.domain_name, desc, true, sel, pub, path, d.created_at, now, none⟩, ?_,
        rfl, rfl⟩
      simp only [List.map_cons, if_pos hd, List.filter_cons]
      rw [if_pos (by simp [beq_iff_eq.mp hd])]
      rfl
    · have ht : t.any (fun d => d.domain_name == domain) = true := by
        simp only [List.any_cons] at hany
        rcases Bool.or_eq_true_iff.mp hany with h | h
        · exact absurd h hd
        · exact h
      obtain ⟨r, hr, h1, h2⟩ := ih ht
      refine ⟨r, ?_, h1, h2⟩
      simp only [List.map_cons, if_neg hd, List.filter_cons]
      rw [if_neg (by simp [Bool.eq_false_iff.mpr hd])]
      exact hr

theorem upsertDomainRow_filter_head (rows : List DomainRow)
    (domain desc sel pub path : String) (now : Nat) :
    ∃ r, ((upsertDomainRow rows domain desc sel pub path now).filter
        (fun d => d.domain_name == domain && d.deleted_at == none)).head? = some r ∧
      r.dkim_selector = sel ∧ r.dkim_public_key = pub := by
  unfold upsertDomainRow
  by_cases hany : rows.any (fun d => d.domain_name == domain) = true
  · rw [if_pos hany]
    exact filter_upsertDomainMap_head rows hany
  · rw [if_neg hany]
    refine ⟨⟨domain, desc, true, sel, pub, path, now, now, none⟩, ?_, rfl, rfl⟩
    rw [List.filter_append]
    have hnil : rows.filter (fun d => d.domain_name == domain && d.deleted_at == none)
        = [] := by
      rw [List.filter_eq_nil_iff]
      intro x hx hpx
      simp only [Bool.and_eq_true] at hpx
      exact hany (List.any_eq_true.mpr ⟨x, hx, hpx.1⟩)
    rw [hnil]
    simp

theorem dkim_prefix_append_ne_empty (b : String) : "v=DKIM1; k=rsa; p=" ++ b ≠ "" := by
  intro h
  have hd := congrArg String.data h
  rw [String.data_append] at hd
  have := (List.append_eq_nil.mp hd).1
  simp at this

/-- C6: for a valid domain name with no existing key file, `createDomain`
persists the generated private key and a subsequent `getDkim` returns a
TXT value of the form `v=DKIM1; k=rsa; p=` followed by the non-empty
stripped public-key body; calling `createDomain` again with the same name
(any fresh keypair, any derivation) leaves the private-key file content
unchanged, because `ensureDkimKey` loads the existing key instead of
regenerating it. -/
theorem createDomain_getDkim_roundtrip {cfg : ApiCfg} {db : Db} {fs : FileSys}
    {gen : String × String} {derive : String → String} {now : Nat} {input : DomainInput}
    (hready : cfg.ready = true)
    (hdom : domainMatch (jsNorm input.domain) = true)
    (hfresh : fsRead fs (keyPathOf cfg (jsNorm input.domain)) = none)
    (hpub : stripPem gen.2 ≠ "")
    (hmapne : cfg.dkimSelectorMap ≠ keyPathOf cfg (jsNorm input.domain)) :
    getDkim cfg ((createDomain cfg db fs gen derive now input).1) input.domain
      = Except.ok ⟨jsNorm input.domain, jsFalsyOr cfg.dkimSelector cfg.dkimSelector,
          "v=DKIM1; k=rsa; p=" ++ stripPem gen.2⟩ ∧
    stripPem gen.2 ≠ "" ∧
    fsRead ((createDomain cfg db fs gen derive now input).2.1)
        (keyPathOf cfg (jsNorm input.domain)) = some gen.1 ∧
    (∀ (gen2 : String × String) (derive2 : String → String) (now2 : Nat)
        (input2 : DomainInput), jsNorm input2.domain = jsNorm input.domain →
      fsRead ((createDomain cfg ((createDomain cfg db fs gen derive now input).1)
          ((createDomain cfg db fs gen derive now input).2.1) gen2 derive2 now2 input2).2.1)
        (keyPathOf cfg (jsNorm input.domain)) = some gen.1) := by
  have hensure : ensureDkimKey cfg fs gen derive (jsNorm input.domain) cfg.dkimSelector
      = (fsWrite fs (keyPathOf cfg (jsNorm input.domain)) gen.1,
         Except.ok (keyPathOf cfg (jsNorm input.domain),
           "v=DKIM1; k=rsa; p=" ++ stripPem gen.2)) := by
    unfold ensureDkimKey
    simp only []
    have hfresh2 : fsRead fs (cfg.dkimKeysDir ++ "/" ++ jsNorm input.domain ++ "." ++
        cfg.dkimSelector ++ ".key") = none := hfresh
    rw [hfresh2]
    simp only [if_neg hpub]
    rfl
  have hfst : (createDomain cfg db fs gen derive now input).1 =
      ⟨upsertDomainRow db.mail_domains (jsNorm input.domain)
          (jsFalsyOr input.description "Managed by internal panel") cfg.dkimSelector
          ("v=DKIM1; k=rsa; p=" ++ stripPem gen.2) (keyPathOf cfg (jsNorm input.domain))
          now,
        db.mail_users, db.rate_limit_events, db.mailbox_state, db.audit_logs,
        db.set_active_calls⟩ := by
    unfold createDomain
    rw [if_neg (by simp [hready]), if_neg (by simp [hdom])]
    simp only [hensure]
    cases reloadRspamd cfg <;> rfl
  have hsnd : (createDomain cfg db fs gen derive now input).2.1 =
      updateDkimSelectorMap cfg (fsWrite fs (keyPathOf cfg (jsNorm input.domain)) gen.1)
        (jsNorm input.domain) cfg.dkimSelector true := by
    unfold createDomain
    rw [if_neg (by simp [hready]), if_neg (by simp [hdom])]
    simp only [hensure]
    cases reloadRspamd cfg <;> rfl
  have hkey1 : fsRead ((createDomain cfg db fs gen derive now input).2.1)
      (keyPathOf cfg (jsNorm input.domain)) = some gen.1 := by
    rw [hsnd, fsRead_updateDkimSelectorMap_other _ _ _ _ (Ne.symm hmapne),
      fsRead_fsWrite_self]
  refine ⟨?_, hpub, hkey1, ?_⟩
  · unfold getDkim
    rw [if_neg (by simp [hready]), if_neg (by simp [hdom]), hfst]
    obtain ⟨r, hr, hrsel, hrpub⟩ := upsertDomainRow_filter_head db.mail_domains
      (jsNorm input.domain) (jsFalsyOr input.description "Managed by internal panel")
      cfg.dkimSelector ("v=DKIM1; k=rsa; p=" ++ stripPem gen.2)
      (keyPathOf cfg (jsNorm input.domain)) now
    have hr2 : ((⟨upsertDomainRow db.mail_domains (jsNorm input.domain)
        (jsFalsyOr input.description "Managed by internal panel") cfg.dkimSelector
        ("v=DKIM1; k=rsa; p=" ++ stripPem gen.2) (keyPathOf cfg (jsNorm input.domain))
        now,
        db.mail_users, db.rate_limit_events, db.mailbox_state, db.audit_logs,
        db.set_active_calls⟩ : Db).mail_domains.filter
        (fun d => d.domain_name == jsNorm input.domain && d.deleted_at == none)).head?
        = some r := hr
    rw [hr2]
    simp only [Except.ok.injEq, DkimView.mk.injEq]
    refine ⟨trivial, by rw [hrsel], ?_⟩
    rw [hrpub]
    unfold jsFalsyOr
    rw [if_neg (dkim_prefix_append_ne_empty _)]
  · intro gen2 derive2 now2 input2 hdom2
    generalize hX : (createDomain cfg db fs gen derive now input).1 = X
    generalize hY : (createDomain cfg db fs gen derive now input).2.1 = Y
    rw [hY] at hkey1
    unfold createDomain
    rw [if_neg (by simp [hready]), hdom2, if_neg (by simp [hdom])]
    unfold ensureDkimKey
    simp only []
    have hkey2 : fsRead Y
        (cfg.dkimKeysDir ++ "/" ++ jsNorm input.domain ++ "." ++ cfg.dkimSelector ++
          ".key") = some gen.1 := hkey1
    rw [hkey2]
    simp only []
    by_cases hstrip : stripPem (derive2 gen.1) = ""
    · rw [if_pos hstrip]
      exact hkey1
    · rw [if_neg hstrip]
      cases reloadRspamd cfg <;>
        · simp only []
          rw [fsRead_updateDkimSelectorMap_other _ _ _ _ (Ne.symm hmapne)]
          exact hkey1

def c6Gen : String × String :=
  ("PRIVATEKEYPEM", "-----BEGIN PUBLIC KEY-----\nMIIBIjAN\n-----END PUBLIC KEY-----\n")

def c6Gen2 : String × String := ("NEWPRIVATEKEY", "NEWPUB")

def c6Input : DomainInput := ⟨"example.com", ""⟩

def c6Derive : String → String := fun _ => ""

/-- C6 witness: the round-trip theorem applied at a fresh filesystem with
a concrete keypair, including a concrete second `createDomain` call. -/
theorem createDomain_getDkim_roundtrip_witness :
    getDkim apiCfg ((createDomain apiCfg emptyDb [] c6Gen c6Derive 1 c6Input).1)
        c6Input.domain
      = Except.ok ⟨jsNorm c6Input.domain, jsFalsyOr apiCfg.dkimSelector apiCfg.dkimSelector,
          "v=DKIM1; k=rsa; p=" ++ stripPem c6Gen.2⟩ ∧
    stripPem c6Gen.2 ≠ "" ∧
    fsRead ((createDomain apiCfg emptyDb [] c6Gen c6Derive 1 c6Input).2.1)
        (keyPathOf apiCfg (jsNorm c6Input.domain)) = some c6Gen.1 ∧
    fsRead ((createDomain apiCfg ((createDomain apiCfg emptyDb [] c6Gen c6Derive 1
          c6Input).1)
        ((createDomain apiCfg emptyDb [] c6Gen c6Derive 1 c6Input).2.1) c6Gen2 c6Derive 2
          c6Input).2.1)
      (keyPathOf apiCfg (jsNorm c6Input.domain)) = some c6Gen.1 := by
  have h := @createDomain_getDkim_roundtrip apiCfg emptyDb [] c6Gen c6Derive 1 c6Input
    rfl (by decide) (by decide) (by decide) (by decide)
  exact ⟨h.1, h.2.1, h.2.2.1, h.2.2.2 c6Gen2 c6Derive 2 c6Input rfl⟩

/-! ### C8: the selector map rewrite -/

theorem domainLineMatch_fresh_entry (d sel : String) :
    domainLineMatch d (d ++ " " ++ sel) = true := by
  unfold domainLineMatch
  have hdata : (d ++ " " ++ sel).data = d.data ++ (' ' :: sel.data) := by
    rw [String.data_append, String.data_append, List.append_assoc]
    rfl
  rw [Bool.and_eq_true]
  constructor
  · rw [hdata, List.isPrefixOf_iff_prefix]
    exact List.prefix_append _ _
  · rw [hdata, List.drop_left]
    rfl

/-- C8 (amended): `updateDkimSelectorMap` drops blank and comment lines,
removes every line consisting of the domain followed by whitespace (a
well-formed map entry for that domain), and appends exactly one fresh
`domain selector` line exactly when `active`; so after any call the
written map holds at most one entry line for the domain (exactly one
when `active`, as its last line), and the map file exists afterwards —
a missing file is created rather than raising. -/
theorem updateSelectorMap_spec (cfg : ApiCfg) (fs : FileSys) (d sel : String)
    (active : Bool) :
    ((updateDkimSelectorMapLines cfg fs d sel active).countP
        (fun l => domainLineMatch d l) = if active then 1 else 0) ∧
    (active = true → (updateDkimSelectorMapLines cfg fs d sel active).getLast?
        = some (d ++ " " ++ sel)) ∧
    fsRead (updateDkimSelectorMap cfg fs d sel active) cfg.dkimSelectorMap
      = some (joinSep "\n" (updateDkimSelectorMapLines cfg fs d sel active) ++
          (if (updateDkimSelectorMapLines cfg fs d sel active).length ≠ 0 then "\n"
           else "")) := by
  have hkept : ∀ lines : List String,
      ((lines.filter (fun l => !isCommentLine l)).filter
        (fun l => !domainLineMatch d l)).countP (fun l => domainLineMatch d l) = 0 := by
    intro lines
    rw [List.countP_eq_zero]
    intro a ha
    have := (List.mem_filter.mp ha).2
    simp only [Bool.not_eq_true'] at this
    rw [this]
    exact Bool.false_ne_true
  refine ⟨?_, ?_, ?_⟩
  · unfold updateDkimSelectorMapLines
    cases active
    · simp only [Bool.false_eq_true, if_false]
      exact hkept _
    · simp only [if_true]
      rw [List.countP_append, hkept _]
      simp [List.countP_cons, domainLineMatch_fresh_entry]
  · intro ha
    unfold updateDkimSelectorMapLines
    rw [ha]
    simp only [if_true]
    exact List.getLast?_concat _
  · unfold updateDkimSelectorMap
    simp only []
    exact fsRead_fsWrite_self _ _ _

def c8Fs : FileSys := [("/etc/rspamd/local.d/dkim_selectors.map", "example.com\n")]

/-- C8, counterexample to the claim as stated: a map line consisting of
the bare domain (no selector) begins with the given domain yet is not
removed — the rewrite only removes lines where the domain is followed by
whitespace — so after an `active` call the map holds two lines beginning
with the domain. -/
theorem updateSelectorMap_bare_line_survives :
    "example.com".data.isPrefixOf ("example.com" : String).data = true ∧
    updateDkimSelectorMapLines apiCfg c8Fs "example.com" "mail" true
      = ["example.com", "example.com mail"] ∧
    (updateDkimSelectorMapLines apiCfg c8Fs "example.com" "mail" true).countP
      (fun l => "example.com".data.isPrefixOf l.data) = 2 := by
  decide

/-- C8 witness: the amended specification applied at a concrete map file
holding a comment, a foreign entry and two entries for the domain. -/
theorem updateSelectorMap_spec_witness :
    ((updateDkimSelectorMapLines apiCfg
        [("/etc/rspamd/local.d/dkim_selectors.map",
          "# comment\nexample.com old\nother.org sel\nexample.com\u0009x\n")]
        "example.com" "mail" true).countP
        (fun l => domainLineMatch "example.com" l) = if true then 1 else 0) ∧
    (updateDkimSelectorMapLines apiCfg
        [("/etc/rspamd/local.d/dkim_selectors.map",
          "# comment\nexample.com old\nother.org sel\nexample.com\u0009x\n")]
        "example.com" "mail" true).getLast? = some ("example.com" ++ " " ++ "mail") ∧
    fsRead (updateDkimSelectorMap apiCfg
        [("/etc/rspamd/local.d/dkim_selectors.map",
          "# comment\nexample.com old\nother.org sel\nexample.com\u0009x\n")]
        "example.com" "mail" true) apiCfg.dkimSelectorMap
      = some (joinSep "\n" (updateDkimSelectorMapLines apiCfg
          [("/etc/rspamd/local.d/dkim_selectors.map",
            "# comment\nexample.com old\nother.org sel\nexample.com\u0009x\n")]
          "example.com" "mail" true) ++
          (if (updateDkimSelectorMapLines apiCfg
            [("/etc/rspamd/local.d/dkim_selectors.map",
              "# comment\nexample.com old\nother.org sel\nexample.com\u0009x\n")]
            "example.com" "mail" true).length ≠ 0 then "\n" else "")) := by
  have h := updateSelectorMap_spec apiCfg
    [("/etc/rspamd/local.d/dkim_selectors.map",
      "# comment\nexample.com old\nother.org sel\nexample.com\u0009x\n")]
    "example.com" "mail" true
  exact ⟨h.1, h.2.1 rfl, h.2.2⟩

/-! ### C9: the worker's log-line parser (`RateLimitWorker.parseRatelimitLine`)

The remaining field extractors of `parseRatelimitLine` are embedded here:
the three bucket patterns, the queue-id pattern (with its leading word
boundary), the message-id pattern, and `extractTimestamp`.  `Date`
parsing of the leading token is an external function `dateParse`
returning milliseconds since the epoch, with `none` for an invalid date
(`NaN`), in which case the source falls back to `new Date()`, the
ingestion time. -/

/-- Case-insensitive literal prefix test (the pattern is given in
lowercase), modelling a regex literal under the `i` flag. -/
def ciStarts : List Char → List Char → Bool
  | [], _ => true
  | _ :: _, [] => false
  | p :: ps, c :: cs => jsToLowerChar c == p && ciStarts ps cs

/-- Try a match attempt at every start position, leftmost first (the
regex-engine scan of an unanchored pattern). -/
def scanFor (f : List Char → Option String) : List Char → Option String
  | [] => none
  | c :: rest =>
    match f (c :: rest) with
    | some m => some m
    | none => scanFor f rest

/-- As `scanFor`, with the previous character supplied to the attempt
(for the leading word-boundary assertion of the qid pattern). -/
def scanForB (f : Option Char → List Char → Option String) :
    Option Char → List Char → Option String
  | _, [] => none
  | prev, c :: rest =>
    match f prev (c :: rest) with
    | some m => some m
    | none => scanForB f (some c) rest

/-- A regex word character `[A-Za-z0-9_]` (code 95 is the underscore). -/
def wordChar (c : Char) : Bool :=
  isAsciiAlpha c || isAsciiDigit c || c.toNat == 95

/-- The capture class `[A-Za-z0-9._-]` of the `bucket` and `rl_name`
patterns (codes 46, 95, 45). -/
def bucketCapChar (c : Char) : Bool :=
  isAsciiAlpha c || isAsciiDigit c || c.toNat == 46 || c.toNat == 95 || c.toNat == 45

/-- The capture class `[A-Z0-9]` of the qid pattern under the `i` flag. -/
def qidCapChar (c : Char) : Bool :=
  isAsciiAlpha c || isAsciiDigit c

/-- The capture class of the message-id pattern: any character that is
neither `>` (code 62) nor whitespace. -/
def msgIdCapChar (c : Char) : Bool :=
  !(c.toNat == 62) && !(jsWhitespace c)

/-- One attempt of the first bucket pattern (`Ratelimit`, one or more
whitespace characters, then a non-empty double-quoted capture, under the
`i` flag) at the start of `l`.  The mandatory quote after the greedy
whitespace run and the mandatory closing quote after the greedy capture
run make the greedy runs exact (no backtracking alternative exists). -/
def ratelimitQuoteAt (l : List Char) : Option String :=
  if ciStarts "ratelimit".data l then
    let r := l.drop 9
    let ws := r.takeWhile jsWhitespace
    if ws = [] then none
    else
      match r.drop ws.length with
      | '"' :: r2 =>
        let cap := r2.takeWhile (fun c => c.toNat != 34)
        if cap = [] then none
        else
          match r2.drop cap.length with
          | '"' :: _ => some (String.mk cap)
          | _ => none
      | _ => none
  else none

/-- One attempt of a `key[=:]` pattern followed by optional whitespace
and a non-empty capture run (the shape of the `bucket`, `rl_name` and
`qid` patterns) at the start of `l`.  Codes 61 and 58 are `=` and `:`;
the capture classes contain no whitespace character, so the greedy
whitespace skip is exact. -/
def keyValueAt (key : List Char) (cap : Char → Bool) (l : List Char) : Option String :=
  if ciStarts key l then
    match l.drop key.length with
    | c :: r =>
      if c.toNat == 61 || c.toNat == 58 then
        let v := (r.dropWhile jsWhitespace).takeWhile cap
        if v = [] then none else some (String.mk v)
      else none
    | [] => none
  else none

/-- One attempt of the qid pattern: the leading word boundary requires
the previous character, if any, not to be a word character. -/
def qidAt (prev : Option Char) (l : List Char) : Option String :=
  match prev with
  | some p => if wordChar p then none else keyValueAt "qid".data qidCapChar l
  | none => keyValueAt "qid".data qidCapChar l

/-- One attempt of the message-id pattern (`message`, an optional `_` or
`-`, `id`, `[=:]`, optional whitespace, an optional `<` and a non-empty
capture of non-`>`-non-whitespace characters) at the start of `l`.  The
greedy optional `<` is backtracked — left uncomsumed and captured —
exactly when the capture after it would be empty. -/
def messageIdAt (l : List Char) : Option String :=
  if ciStarts "message".data l then
    let r := l.drop 7
    let rid : Option (List Char) :=
      match r with
      | c :: r1 =>
        if (c.toNat == 95 || c.toNat == 45) && ciStarts "id".data r1 then some (r1.drop 2)
        else if ciStarts "id".data r then some (r.drop 2)
        else none
      | [] => none
    match rid with
    | none => none
    | some r2 =>
      match r2 with
      | c :: r3 =>
        if c.toNat == 61 || c.toNat == 58 then
          let r4 := r3.dropWhile jsWhitespace
          match r4 with
          | '<' :: r5 =>
            let cap := r5.takeWhile msgIdCapChar
            if cap = [] then
              let cap2 := r4.takeWhile msgIdCapChar
              if cap2 = [] then none else some (String.mk cap2)
            else some (String.mk cap)
          | _ =>
            let cap := r4.takeWhile msgIdCapChar
            if cap = [] then none else some (String.mk cap)
        else none
      | [] => none
  else none

/-- `RateLimitWorker.extractTimestamp`: parse the first space-separated
token (code 32) of the line as a date; fall back to the ingestion time
when parsing yields `NaN`. -/
def extractTimestamp (dateParse : String → Option Nat) (ingestNow : Nat)
    (line : String) : Nat :=
  match dateParse (String.mk (line.data.takeWhile (fun c => c.toNat != 32))) with
  | some t => t
  | none => ingestNow

/-- `RateLimitWorker.parseRatelimitLine`. -/
def parseRatelimitLine (dateParse : String → Option Nat) (ingestNow : Nat)
    (line : String) : Option ParsedEvent :=
  let timestamp := extractTimestamp dateParse ingestNow line
  match extractEmail line with
  | none => none
  | some userEmail =>
    let bucketMatch : Option String :=
      match scanFor ratelimitQuoteAt line.data with
      | some m => some m
      | none =>
        match scanFor (keyValueAt "bucket".data bucketCapChar) line.data with
        | some m => some m
        | none => scanFor (keyValueAt "rl_name".data bucketCapChar) line.data
    let bucketName : String :=
      match bucketMatch with
      | some m => jsFalsyOr m "ratelimit"
      | none => "ratelimit"
    some { userEmail := jsToLower userEmail,
           bucketName := bucketName,
           action := "ratelimited",
           qid := scanForB qidAt none line.data,
           messageId := scanFor messageIdAt line.data,
           eventTime := timestamp,
           source := "rspamd_log",
           rawLine := line }

/-! ### C9: every stored identifier is trimmed and lowercase -/

theorem emailLocalChar_ge37 {c : Char} (h : emailLocalChar c = true) : 37 ≤ c.toNat := by
  unfold emailLocalChar isAsciiAlpha isAsciiUpper isAsciiLower isAsciiDigit at h
  simp only [Bool.or_eq_true, decide_eq_true_eq, beq_iff_eq] at h
  omega

theorem emailDomChar_ge37 {c : Char} (h : emailDomChar c = true) : 37 ≤ c.toNat := by
  unfold emailDomChar isAsciiAlpha isAsciiUpper isAsciiLower isAsciiDigit at h
  simp only [Bool.or_eq_true, decide_eq_true_eq, beq_iff_eq] at h
  omega

theorem isAsciiAlpha_ge37 {c : Char} (h : isAsciiAlpha c = true) : 37 ≤ c.toNat := by
  unfold isAsciiAlpha isAsciiUpper isAsciiLower at h
  simp only [Bool.or_eq_true, decide_eq_true_eq] at h
  omega

theorem jsWhitespace_false_of_ge37 {c : Char} (h : 37 ≤ c.toNat) :
    jsWhitespace c = false := by
  unfold jsWhitespace
  simp only [Bool.or_eq_false_iff, beq_eq_false_iff_ne, ne_eq]
  omega

theorem jsToLowerChar_ge37 {c : Char} (h : 37 ≤ c.toNat) :
    37 ≤ (jsToLowerChar c).toNat := by
  by_cases hu : 65 ≤ c.toNat ∧ c.toNat ≤ 90
  · rw [jsToLowerChar_toNat_of_upper hu]
    omega
  · unfold jsToLowerChar
    rw [if_neg hu]
    exact h

/-- Every character of a successful match of the worker's email regex at
a fixed position has code at least 37: the character classes of the
pattern contain no whitespace and no control characters. -/
theorem jsEmailMatchAt_ge37 {l m : List Char} (h : jsEmailMatchAt l = some m) :
    ∀ c ∈ m, 37 ≤ c.toNat := by
  simp only [jsEmailMatchAt] at h
  split at h
  · exact Option.noConfusion h
  · split at h
    · split at h
      · injection h with h
        subst h
        intro c hc
        simp only [List.mem_append, List.mem_cons] at hc
        rcases hc with (hc | hc | hc) | hc | hc
        · exact emailLocalChar_ge37 (List.mem_takeWhile_imp hc)
        · subst hc; decide
        · exact emailDomChar_ge37 (List.mem_takeWhile_imp (List.take_subset _ _ hc))
        · subst hc; decide
        · exact isAsciiAlpha_ge37 (List.mem_takeWhile_imp hc)
      · exact Option.noConfusion h
    · exact Option.noConfusion h

/-- Every character of the leftmost email-regex match has code at least
37; in particular the extracted email contains no whitespace. -/
theorem extractEmailList_ge37 :
    ∀ {l m : List Char}, extractEmailList l = some m → ∀ c ∈ m, 37 ≤ c.toNat := by
  intro l
  induction l with
  | nil => intro m h; exact Option.noConfusion h
  | cons a t ih =>
    intro m h
    cases hm : jsEmailMatchAt (a :: t) with
    | some mm =>
      simp only [extractEmailList, hm] at h
      injection h with h
      subst h
      exact jsEmailMatchAt_ge37 hm
    | none =>
      simp only [extractEmailList, hm] at h
      exact ih h

/-- The email field of any successfully parsed rate-limit line is a
fixed point of both lowercasing and trimming. -/
theorem parseRatelimitLine_email_norm {dp : String → Option Nat} {tN : Nat}
    {line : String} {e : ParsedEvent}
    (h : parseRatelimitLine dp tN line = some e) :
    jsToLower e.userEmail = e.userEmail ∧ jsTrim e.userEmail = e.userEmail := by
  cases hx : extractEmail line with
  | none =>
    simp only [parseRatelimitLine, hx] at h
    exact Option.noConfusion h
  | some u =>
    simp only [parseRatelimitLine, hx] at h
    injection h with h
    subst h
    constructor
    · exact jsToLower_idem u
    · show jsTrim (jsToLower u) = jsToLower u
      obtain ⟨mm, hmm, hu⟩ : ∃ mm, extractEmailList line.data = some mm ∧ u = String.mk mm := by
        unfold extractEmail at hx
        cases hL : extractEmailList line.data with
        | none =>
          rw [hL] at hx
          exact Option.noConfusion hx
        | some mm =>
          rw [hL] at hx
          injection hx with hx
          exact ⟨mm, rfl, hx.symm⟩
      subst hu
      have hns : ∀ c ∈ mm.map jsToLowerChar, jsWhitespace c = false := by
        intro c hc
        rcases List.mem_map.mp hc with ⟨a, ha, hac⟩
        rw [← hac]
        exact jsWhitespace_false_of_ge37 (jsToLowerChar_ge37 (extractEmailList_ge37 hmm a ha))
      show String.mk (trimList (mm.map jsToLowerChar)) = String.mk (mm.map jsToLowerChar)
      rw [trimList_eq_self_of_no_ws hns]

/-- C9: every Control API operation normalises its email/domain argument
with `String(x).trim().toLowerCase()` before validation and database
access, so each operation is invariant under replacing the identifier
argument by its normalised form (hence its result does not depend on the
letter case or surrounding whitespace of the input), every identifier the
operations store is of the normalised form `jsNorm s`, which is itself a
fixed point of lowercasing and trimming, and the worker's parser
lower-cases the extracted email, which contains no whitespace, so the
emails it feeds into `rate_limit_events` and `mailbox_state` are also
fully lowercase and trimmed. -/
theorem identifiers_normalized_case_insensitive :
    (∀ cfg db fs gen derive now d desc,
      createDomain cfg db fs gen derive now ⟨d, desc⟩ =
        createDomain cfg db fs gen derive now ⟨jsNorm d, desc⟩) ∧
    (∀ cfg db fs now d,
      deleteDomain cfg db fs now d = deleteDomain cfg db fs now (jsNorm d)) ∧
    (∀ now db em b,
      setMailboxActive now db em b = setMailboxActive now db (jsNorm em) b) ∧
    (∀ cfg db bhash now lp d nm pw q,
      createMailbox cfg db bhash now ⟨lp, d, nm, pw, q⟩ =
        createMailbox cfg db bhash now ⟨jsNorm lp, jsNorm d, nm, pw, q⟩) ∧
    (∀ cfg db d, getDkim cfg db d = getDkim cfg db (jsNorm d)) ∧
    (∀ cfg db s,
      listMailboxes cfg db (some s) = listMailboxes cfg db (some (jsNorm s))) ∧
    (∀ s, jsToLower (jsNorm s) = jsNorm s ∧ jsTrim (jsNorm s) = jsNorm s) ∧
    (∀ dp tN line e, parseRatelimitLine dp tN line = some e →
      jsToLower e.userEmail = e.userEmail ∧ jsTrim e.userEmail = e.userEmail) := by
  refine ⟨?_, ?_, ?_, ?_, ?_, ?_, ?_, ?_⟩
  · intro cfg db fs gen derive now d desc
    unfold createDomain
    simp only [jsNorm_idem]
  · intro cfg db fs now d
    unfold deleteDomain
    simp only [jsNorm_idem]
  · intro now db em b
    unfold setMailboxActive
    simp only [jsNorm_idem]
  · intro cfg db bhash now lp d nm pw q
    unfold createMailbox
    simp only [jsNorm_idem]
  · intro cfg db d
    unfold getDkim
    simp only [jsNorm_idem]
  · intro cfg db s
    by_cases hr : cfg.ready = true
    · unfold listMailboxes
      by_cases hs : s = ""
      · subst hs
        have h0 : jsNorm "" = "" := by decide
        rw [h0]
      · by_cases hn : jsNorm s = ""
        · simp [hr, hs, hn]
        · simp [hr, hs, hn, jsNorm_idem]
    · unfold listMailboxes
      rw [if_pos hr, if_pos hr]
  · intro s
    refine ⟨jsToLower_jsNorm_fixed s, ?_⟩
    unfold jsNorm
    rw [jsTrim_jsToLower_comm, jsTrim_idem]
  · intro dp tN line e h
    exact parseRatelimitLine_email_norm h

def c9Line : String :=
  "2024-06-01T10:00:00 rspamd ratelimited: Ratelimit \"bounce_to\"; user <OPS@Example.COM> qid=9A2F"

def c9Event : ParsedEvent :=
  { userEmail := "ops@example.com", bucketName := "bounce_to",
    action := "ratelimited", qid := some "9A2F", messageId := none,
    eventTime := 5, source := "rspamd_log", rawLine := c9Line }

/-- C9 witness: the parser conjunct of the theorem applied to a concrete
mixed-case log line (whose parse is evaluated by `decide`), and the
`setMailboxActive` invariance conjunct applied to a concrete padded
mixed-case email. -/
theorem identifiers_normalized_case_insensitive_witness :
    parseRatelimitLine (fun _ => none) 5 c9Line = some c9Event ∧
    (jsToLower c9Event.userEmail = c9Event.userEmail ∧
      jsTrim c9Event.userEmail = c9Event.userEmail) ∧
    setMailboxActive 0 emptyDb " OPS@Example.COM " true =
      setMailboxActive 0 emptyDb (jsNorm " OPS@Example.COM ") true :=
  ⟨by decide,
   identifiers_normalized_case_insensitive.2.2.2.2.2.2.2
     (fun _ => none) 5 c9Line c9Event (by decide),
   identifiers_normalized_case_insensitive.2.2.1 0 emptyDb " OPS@Example.COM " true⟩

end MailPlatform
